import Mathlib

/-!
# SkillSphere — AI-response normalization and validation pipeline, verified

A shallow embedding of the resume/roadmap response normalizer of the
SkillSphere backend (files `src/api/index.py` and `src/main.py`), together
with proofs about it.

Python strings are modelled as `List Char`.  Python dicts holding decoded
JSON are modelled as insertion-ordered association lists (`JObj`); lookup
takes the first matching key (keys produced by the JSON decoder are unique,
since the decoder resolves duplicates last-wins, as Python's `dict` does).
Decoded JSON values are modelled by `JVal`.  A fallible Python computation
(one that may raise an exception that the caller does not catch) is
modelled with `Option` or with the `Outcome` type below.
-/

/-- Python `str` as a list of unicode scalar values. -/
abbrev Str := List Char

/-- Embed a Lean string literal as a Python string. -/
def pstr (s : String) : Str := s.toList

/-- The characters Python's `str.strip()` removes: exactly those `c` with
`c.isspace()` true (ASCII whitespace, the C1 separator block, and the
Unicode space characters). -/
def pyWsChar (c : Char) : Bool :=
  c = ' ' || c = '\t' || c = '\n' || c = '\r' || c = '\x0b' || c = '\x0c' ||
  (0x1c ≤ c.toNat && c.toNat ≤ 0x1f) || c = '\x85' || c = '\xa0' ||
  c = '\u1680' || (0x2000 ≤ c.toNat && c.toNat ≤ 0x200a) ||
  c = '\u2028' || c = '\u2029' || c = '\u202f' || c = '\u205f' || c = '\u3000'

/-- The JSON grammar's insignificant whitespace (RFC 8259), as accepted
around tokens by Python's `json` module and by pydantic's JSON parser. -/
def jsonWsChar (c : Char) : Bool :=
  c = ' ' || c = '\t' || c = '\n' || c = '\r'

/-- Python `text.strip()`: drop the maximal whitespace prefix and suffix. -/
def pyStrip (l : Str) : Str :=
  List.rdropWhile pyWsChar (l.dropWhile pyWsChar)

/-- `src/api/index.py`, `clean_json_response`: strip the text, remove a
leading  "```json" (7 characters) if present, then a leading "```" if
present, then a trailing "```" if present, and strip again. -/
def clean_json_response (text : Str) : Str :=
  let t1 := pyStrip text
  let t2 := if (pstr "```json").isPrefixOf t1 then t1.drop 7 else t1
  let t3 := if (pstr "```").isPrefixOf t2 then t2.drop 3 else t2
  let t4 := if (pstr "```").isSuffixOf t3 then t3.take (t3.length - 3) else t3
  pyStrip t4

/-- A decoded JSON value, as produced by the JSON parsers used by the code
(Python `json` / pydantic).  Integer literals are kept as `Int`; number
literals with a fraction or exponent part are kept as their lexeme
(`fnum`), since no code path under verification consumes them. -/
inductive JVal where
  | null : JVal
  | jbool (b : Bool) : JVal
  | num (n : Int) : JVal
  | fnum (lexeme : Str) : JVal
  | str (s : Str) : JVal
  | arr (elems : List JVal) : JVal
  | obj (fields : List (Str × JVal)) : JVal

/-- A decoded JSON object: a Python dict as an insertion-ordered
association list. -/
abbrev JObj := List (Str × JVal)

/-- Dict lookup (`data[k]` / `data.get(k)`); first match wins (keys are
unique in any list built by `dictSet`). -/
def dictGet (d : JObj) (k : Str) : Option JVal :=
  match d with
  | [] => none
  | (k', v) :: rest => if k' = k then some v else dictGet rest k

/-- Python `k in data`. -/
def dictHas (d : JObj) (k : Str) : Bool :=
  (dictGet d k).isSome

/-- Python `data[k] = v`: overwrite in place if the key exists, else append
(insertion order preserved). -/
def dictSet (d : JObj) (k : Str) (v : JVal) : JObj :=
  match d with
  | [] => [(k, v)]
  | (k', v') :: rest =>
    if k' = k then (k', v) :: rest else (k', v') :: dictSet rest k v

/-- Python `s.lower()` (the strings the code lowers are ASCII). -/
def pyLower (s : Str) : Str := s.map Char.toLower

/-- Python substring membership `needle in hay`. -/
def strIn (needle : Str) : Str → Bool
  | [] => needle.isPrefixOf []
  | c :: t => needle.isPrefixOf (c :: t) || strIn needle t

/-- Line `if 'title' in data and 'role' not in data: data['role'] = data['title']`. -/
def expStep1 (data : JObj) : JObj :=
  if dictHas data (pstr "title") && !dictHas data (pstr "role") then
    dictSet data (pstr "role") ((dictGet data (pstr "title")).getD JVal.null)
  else data

/-- Line `if 'description' in data and 'summary' not in data: data['summary'] = data['description']`. -/
def expStep2 (data : JObj) : JObj :=
  if dictHas data (pstr "description") && !dictHas data (pstr "summary") then
    dictSet data (pstr "summary") ((dictGet data (pstr "description")).getD JVal.null)
  else data

/-- Line `if 'project' in data.get('role', '').lower() and 'company' not in
data: data['company'] = 'Personal Project'`.  The receiver of `.lower()` is
`data.get('role', '')`, evaluated unconditionally: a non-string `role`
value raises `AttributeError` (modelled `none`), which pydantic does not
convert to a `ValidationError`. -/
def expStep3 (data : JObj) : Option JObj :=
  match dictGet data (pstr "role") with
  | none => some data
  | some (JVal.str s) =>
    if strIn (pstr "project") (pyLower s) && !dictHas data (pstr "company") then
      some (dictSet data (pstr "company") (JVal.str (pstr "Personal Project")))
    else some data
  | some _ => none

/-- `Experience.handle_ai_variations` (`@model_validator(mode='before')`,
`src/api/index.py` lines 62-69 / `src/main.py` lines 55-65): the three
statements of the hook body, in order, on a dict. -/
def Experience.handle_ai_variations (data : JObj) : Option JObj :=
  expStep3 (expStep2 (expStep1 data))

/-- `Education.handle_ai_variations` (`@model_validator(mode="before")`,
`src/api/index.py` lines 76-83 / `src/main.py` lines 72-81): when
`university` is absent, copy `institution` into it, else `location`,
checked in that order.  No expression here can raise. -/
def Education.handle_ai_variations (data : JObj) : JObj :=
  if !dictHas data (pstr "university") then
    match dictGet data (pstr "institution") with
    | some v => dictSet data (pstr "university") v
    | none =>
      match dictGet data (pstr "location") with
      | some v => dictSet data (pstr "university") v
      | none => data
  else data

/-- The validated `Experience` model (`role: str`, `company: Optional[str]`,
`summary: Optional[str]`). -/
structure Experience where
  role : Str
  company : Option Str
  summary : Option Str
deriving DecidableEq

/-- The validated `Education` model (`degree: str`, `university: str`,
`graduation_year: Optional[int]`). -/
structure Education where
  degree : Str
  university : Str
  graduation_year : Option Int
deriving DecidableEq

/-- The validated `ParsedResume` model: `skills: Dict[str, List[str]]`
(insertion-ordered, unique keys), `experience: List[Experience]`,
`education: List[Education]`. -/
structure ParsedResume where
  skills : List (Str × List Str)
  experience : List Experience
  education : List Education
deriving DecidableEq

/-- The validated `RoadmapStep` model. -/
structure RoadmapStep where
  step : Int
  title : Str
  description : Str
  resources : List Str
deriving DecidableEq

/-- The validated `RoadmapResponse` model. -/
structure RoadmapResponse where
  roadmap : List RoadmapStep
deriving DecidableEq

/-- Result of validating one value against (part of) a pydantic schema:
success, a `ValidationError` (schema failure), or an exception escaping a
`model_validator` hook uncaught (`crash`). -/
inductive Vres (α : Type) where
  | ok (a : α) : Vres α
  | schema : Vres α
  | crash : Vres α

/-- A required `str` field from a decoded JSON value: pydantic accepts only
a JSON string here (no number-to-string coercion); a missing key or any
other shape is a schema failure. -/
def vReqStr (v : Option JVal) : Vres Str :=
  match v with
  | some (JVal.str s) => Vres.ok s
  | _ => Vres.schema

/-- An `Optional[str] = None` field: missing or `null` gives `None`, a JSON
string gives the string, anything else fails the schema. -/
def vOptStr (v : Option JVal) : Vres (Option Str) :=
  match v with
  | none => Vres.ok none
  | some JVal.null => Vres.ok none
  | some (JVal.str s) => Vres.ok (some s)
  | some _ => Vres.schema

/-- Lax string-to-int coercion for an `int`-typed field: an optional sign
followed by one or more digits.  (The real validator also accepts
integral floats and tolerates some surrounding whitespace; no claim under
verification exercises those inputs.) -/
def strToInt? (s : Str) : Option Int :=
  let (neg, ds) :=
    match s with
    | '-' :: rest => (true, rest)
    | '+' :: rest => (false, rest)
    | _ => (false, s)
  if ds ≠ [] && ds.all (fun c => '0' ≤ c && c ≤ '9') then
    let n : Nat := ds.foldl (fun acc c => acc * 10 + (c.toNat - '0'.toNat)) 0
    some (if neg then -(n : Int) else (n : Int))
  else none

/-- An `int`-typed value: a JSON integer, or a string coercible to one. -/
def vIntVal (j : JVal) : Vres Int :=
  match j with
  | JVal.num n => Vres.ok n
  | JVal.str s =>
    match strToInt? s with
    | some n => Vres.ok n
    | none => Vres.schema
  | _ => Vres.schema

/-- An `Optional[int] = None` field (`graduation_year`). -/
def vOptInt (v : Option JVal) : Vres (Option Int) :=
  match v with
  | none => Vres.ok none
  | some JVal.null => Vres.ok none
  | some j =>
    match vIntVal j with
    | Vres.ok n => Vres.ok (some n)
    | _ => Vres.schema

/-- A required `int` field (`step`). -/
def vReqInt (v : Option JVal) : Vres Int :=
  match v with
  | some j => vIntVal j
  | none => Vres.schema

/-- Validate every element of a list field.  pydantic validates all
elements, collecting per-element schema errors, but an exception raised by
an element's `model_validator` propagates immediately; so the list crashes
exactly when some element crashes, else fails when some element fails. -/
def vCollect {α : Type} (f : JVal → Vres α) : List JVal → Vres (List α)
  | [] => Vres.ok []
  | x :: xs =>
    match f x, vCollect f xs with
    | Vres.crash, _ => Vres.crash
    | _, Vres.crash => Vres.crash
    | Vres.ok a, Vres.ok t => Vres.ok (a :: t)
    | _, _ => Vres.schema

/-- A `List[...]` field: must be a JSON array. -/
def vList {α : Type} (f : JVal → Vres α) (v : Option JVal) : Vres (List α) :=
  match v with
  | some (JVal.arr xs) => vCollect f xs
  | _ => Vres.schema

/-- One element of a `List[str]` value. -/
def vStrVal (j : JVal) : Vres Str :=
  match j with
  | JVal.str s => Vres.ok s
  | _ => Vres.schema

/-- A `List[str]` value. -/
def vStrList (j : JVal) : Vres (List Str) :=
  match j with
  | JVal.arr xs => vCollect vStrVal xs
  | _ => Vres.schema

/-- The fields of a `Dict[str, List[str]]` value (`skills`): every value an
array of strings.  No hook runs here, so no crash is possible. -/
def vSkillsFields : JObj → Vres (List (Str × List Str))
  | [] => Vres.ok []
  | (k, v) :: rest =>
    match vStrList v, vSkillsFields rest with
    | Vres.ok l, Vres.ok t => Vres.ok ((k, l) :: t)
    | _, _ => Vres.schema

/-- The `skills` field: a JSON object whose values are string arrays. -/
def vSkills (v : Option JVal) : Vres (List (Str × List Str)) :=
  match v with
  | some (JVal.obj d) => vSkillsFields d
  | _ => Vres.schema

/-- Validate one `experience` element: the `mode='before'` hook
`Experience.handle_ai_variations` runs first on a dict (an `AttributeError`
there is a crash); then `role`/`company`/`summary` are checked.  A
non-dict element skips the hook body and fails the schema. -/
def vExperience (j : JVal) : Vres Experience :=
  match j with
  | JVal.obj d =>
    match Experience.handle_ai_variations d with
    | none => Vres.crash
    | some d' =>
      match vReqStr (dictGet d' (pstr "role")),
            vOptStr (dictGet d' (pstr "company")),
            vOptStr (dictGet d' (pstr "summary")) with
      | Vres.ok r, Vres.ok c, Vres.ok s => Vres.ok ⟨r, c, s⟩
      | _, _, _ => Vres.schema
  | _ => Vres.schema

/-- Validate one `education` element: the hook runs first (it cannot
raise), then `degree`/`university`/`graduation_year` are checked. -/
def vEducation (j : JVal) : Vres Education :=
  match j with
  | JVal.obj d =>
    let d' := Education.handle_ai_variations d
    match vReqStr (dictGet d' (pstr "degree")),
          vReqStr (dictGet d' (pstr "university")),
          vOptInt (dictGet d' (pstr "graduation_year")) with
    | Vres.ok dg, Vres.ok u, Vres.ok g => Vres.ok ⟨dg, u, g⟩
    | _, _, _ => Vres.schema
  | _ => Vres.schema

/-- Validate one `roadmap` element (`RoadmapStep`); no hooks exist on it. -/
def vRoadmapStep (j : JVal) : Vres RoadmapStep :=
  match j with
  | JVal.obj d =>
    match vReqInt (dictGet d (pstr "step")),
          vReqStr (dictGet d (pstr "title")),
          vReqStr (dictGet d (pstr "description")),
          (match dictGet d (pstr "resources") with
           | some v => vStrList v
           | none => Vres.schema) with
    | Vres.ok n, Vres.ok t, Vres.ok de, Vres.ok rs => Vres.ok ⟨n, t, de, rs⟩
    | _, _, _, _ => Vres.schema
  | _ => Vres.schema

/-- Outcome of `ParsedResume.model_validate_json` / the surrounding
`try/except` as the caller sees it: a validated object; a caught
format failure (`ValidationError` or `json.JSONDecodeError`, both mapped by
the route to the same HTTP 422 condition — the spec's `FormatError`); or an
exception that escapes the `except (ValidationError, json.JSONDecodeError)`
clause uncaught. -/
inductive Outcome (α : Type) where
  | ok (a : α) : Outcome α
  | formatError : Outcome α
  | uncaught : Outcome α
deriving DecidableEq

/-- `ParsedResume.model_validate(...)` on a decoded JSON value.  pydantic
validates the three fields in declaration order, collecting schema errors,
but a hook exception (possible only inside `experience` elements)
propagates at once. -/
def validateParsedResume (j : JVal) : Outcome ParsedResume :=
  match j with
  | JVal.obj d =>
    match vSkills (dictGet d (pstr "skills")),
          vList vExperience (dictGet d (pstr "experience")),
          vList vEducation (dictGet d (pstr "education")) with
    | _, Vres.crash, _ => Outcome.uncaught
    | Vres.ok s, Vres.ok e, Vres.ok ed => Outcome.ok ⟨s, e, ed⟩
    | _, _, _ => Outcome.formatError
  | _ => Outcome.formatError

/-- `RoadmapResponse.model_validate(...)` on a decoded JSON value. -/
def validateRoadmapResponse (j : JVal) : Outcome RoadmapResponse :=
  match j with
  | JVal.obj d =>
    match vList vRoadmapStep (dictGet d (pstr "roadmap")) with
    | Vres.ok steps => Outcome.ok ⟨steps⟩
    | Vres.crash => Outcome.uncaught
    | Vres.schema => Outcome.formatError
  | _ => Outcome.formatError

/-- One digit `0`-`9`. -/
def isDigitChar (c : Char) : Bool := '0' ≤ c && c ≤ '9'

/-- Numeric value of a decimal digit run (most significant first). -/
def digitsToNat (acc : Nat) : Str → Nat
  | [] => acc
  | c :: rest => digitsToNat (acc * 10 + (c.toNat - '0'.toNat)) rest

/-- Hex digit value, if any. -/
def hexVal? (c : Char) : Option Nat :=
  let n := c.toNat
  if 47 < n && n < 58 then some (n - 48)
  else if 96 < n && n < 103 then some (n - 87)
  else if 64 < n && n < 71 then some (n - 55)
  else none

/-- Value of a four-hex-digit escape. -/
def hex4? (a b c d : Char) : Option Nat :=
  match hexVal? a, hexVal? b, hexVal? c, hexVal? d with
  | some x, some y, some z, some w => some (((x * 16 + y) * 16 + z) * 16 + w)
  | _, _, _, _ => none

mutual

/-- JSON string contents after the opening quote: characters up to the
closing quote, with the standard escapes; a raw control character is a
parse error; `\uXXXX` escapes decode code points, surrogate halves only
as a high/low pair. -/
def parseStringBody : Str → Option (Str × Str)
  | [] => none
  | c :: rest =>
    if c = '"' then some ([], rest)
    else if c = '\\' then parseEscape rest
    else if c.toNat < 0x20 then none
    else (parseStringBody rest).map (fun p => (c :: p.1, p.2))

/-- One escape sequence after a backslash inside a JSON string. -/
def parseEscape : Str → Option (Str × Str)
  | [] => none
  | e :: r =>
    if e = '"' then (parseStringBody r).map (fun p => ('"' :: p.1, p.2))
    else if e = '\\' then (parseStringBody r).map (fun p => ('\\' :: p.1, p.2))
    else if e = '/' then (parseStringBody r).map (fun p => ('/' :: p.1, p.2))
    else if e = 'b' then (parseStringBody r).map (fun p => ('\x08' :: p.1, p.2))
    else if e = 'f' then (parseStringBody r).map (fun p => ('\x0c' :: p.1, p.2))
    else if e = 'n' then (parseStringBody r).map (fun p => ('\n' :: p.1, p.2))
    else if e = 'r' then (parseStringBody r).map (fun p => ('\r' :: p.1, p.2))
    else if e = 't' then (parseStringBody r).map (fun p => ('\t' :: p.1, p.2))
    else if e = 'u' then
      match r with
      | a :: b :: c :: d :: r2 =>
        match hex4? a b c d with
        | none => none
        | some v =>
          if 0xd800 ≤ v && v ≤ 0xdbff then parseLowSurrogate v r2
          else if 0xdc00 ≤ v && v ≤ 0xdfff then none
          else (parseStringBody r2).map (fun p => (Char.ofNat v :: p.1, p.2))
      | _ => none
    else none

/-- The forced low half of a surrogate pair after a high `\uXXXX` half. -/
def parseLowSurrogate (hi : Nat) : Str → Option (Str × Str)
  | '\\' :: 'u' :: a :: b :: c :: d :: r3 =>
    match hex4? a b c d with
    | some w =>
      if 0xdc00 ≤ w && w ≤ 0xdfff then
        (parseStringBody r3).map (fun p =>
          (Char.ofNat (0x10000 + (hi - 0xd800) * 0x400 + (w - 0xdc00)) :: p.1, p.2))
      else none
    | none => none
  | _ => none

end

/-- Optional fraction part of a JSON number: `('.' digits)?` as a lexeme
slice, or `none` on a malformed fraction. -/
def parseFrac (cs : Str) : Option (Str × Str) :=
  match cs with
  | c :: r =>
    if c = '.' then
      let fs := r.takeWhile isDigitChar
      if fs = [] then none else some ('.' :: fs, r.drop fs.length)
    else some ([], cs)
  | [] => some ([], [])

/-- Optional exponent part of a JSON number: `([eE] [+-]? digits)?` as a
lexeme slice, or `none` on a malformed exponent. -/
def parseExpPart (cs : Str) : Option (Str × Str) :=
  match cs with
  | c :: r =>
    if c = 'e' || c = 'E' then
      let (sgn, r2) :=
        match r with
        | s :: r' => if s = '+' || s = '-' then (([s] : Str), r') else (([] : Str), r)
        | [] => (([] : Str), r)
      let es := r2.takeWhile isDigitChar
      if es = [] then none else some (c :: (sgn ++ es), r2.drop es.length)
    else some ([], cs)
  | [] => some ([], [])

/-- The digits of a JSON number token after any minus sign: an integer
part with no leading zero, then optional fraction and exponent.  A plain
integer literal becomes `JVal.num`; one with fraction or exponent keeps
its lexeme. -/
def parseNumberBody (sgn : Str) (cs1 : Str) : Option (JVal × Str) :=
  let ds := cs1.takeWhile isDigitChar
  match ds with
  | [] => none
  | d0 :: drest =>
    if d0 = '0' && drest ≠ [] then none
    else
      let rest1 := cs1.drop ds.length
      match parseFrac rest1 with
      | none => none
      | some (fr, rest2) =>
        match parseExpPart rest2 with
        | none => none
        | some (ex, rest3) =>
          if fr = [] && ex = [] then
            let n : Int := Int.ofNat (digitsToNat 0 ds)
            some (JVal.num (if sgn = [] then n else -n), rest3)
          else some (JVal.fnum (sgn ++ ds ++ fr ++ ex), rest3)

/-- A JSON number token: an optional minus taken off the front, then the
integer part (no leading zero) with optional fraction and exponent. -/
def parseNumber (cs : Str) : Option (JVal × Str) :=
  match cs with
  | c :: r => if c = '-' then parseNumberBody [c] r else parseNumberBody [] cs
  | [] => parseNumberBody [] cs

/-- Build a Python dict from parsed members in order: later duplicate keys
overwrite earlier ones, as `json.loads` and pydantic's parser resolve
repeated names. -/
def mkPyDict (ms : List (Str × JVal)) : JObj :=
  ms.foldl (fun d kv => dictSet d kv.1 kv.2) []

mutual

/-- One JSON value, after skipping insignificant whitespace.  The fuel
argument only bounds recursion depth; `json_loads` supplies enough for any
input it passes in. -/
def parseVal : Nat → Str → Option (JVal × Str)
  | 0, _ => none
  | Nat.succ f, cs =>
    match cs.dropWhile jsonWsChar with
    | [] => none
    | c :: r =>
      if c = '{' then
        match r.dropWhile jsonWsChar with
        | '}' :: r2 => some (JVal.obj [], r2)
        | _ => (parseMembers f r).map (fun p => (JVal.obj (mkPyDict p.1), p.2))
      else if c = '[' then
        match r.dropWhile jsonWsChar with
        | ']' :: r2 => some (JVal.arr [], r2)
        | _ => (parseItems f r).map (fun p => (JVal.arr p.1, p.2))
      else if c = '"' then
        (parseStringBody r).map (fun p => (JVal.str p.1, p.2))
      else if c = 't' then
        match r with
        | 'r' :: 'u' :: 'e' :: r2 => some (JVal.jbool true, r2)
        | _ => none
      else if c = 'f' then
        match r with
        | 'a' :: 'l' :: 's' :: 'e' :: r2 => some (JVal.jbool false, r2)
        | _ => none
      else if c = 'n' then
        match r with
        | 'u' :: 'l' :: 'l' :: r2 => some (JVal.null, r2)
        | _ => none
      else if c = '-' || isDigitChar c then parseNumber (c :: r)
      else none

/-- The elements of a non-empty JSON array, up to and including `]`. -/
def parseItems : Nat → Str → Option (List JVal × Str)
  | 0, _ => none
  | Nat.succ f, cs =>
    match parseVal f cs with
    | none => none
    | some (v, r) =>
      match r.dropWhile jsonWsChar with
      | ',' :: r2 => (parseItems f r2).map (fun p => (v :: p.1, p.2))
      | ']' :: r2 => some ([v], r2)
      | _ => none

/-- The members of a non-empty JSON object, up to and including `}`. -/
def parseMembers : Nat → Str → Option (List (Str × JVal) × Str)
  | 0, _ => none
  | Nat.succ f, cs =>
    match cs.dropWhile jsonWsChar with
    | '"' :: r =>
      match parseStringBody r with
      | none => none
      | some (k, r2) =>
        match r2.dropWhile jsonWsChar with
        | ':' :: r3 =>
          match parseVal f r3 with
          | none => none
          | some (v, r4) =>
            match r4.dropWhile jsonWsChar with
            | ',' :: r5 => (parseMembers f r5).map (fun p => ((k, v) :: p.1, p.2))
            | '}' :: r5 => some ([(k, v)], r5)
            | _ => none
        | _ => none
    | _ => none

end

/-- JSON document decoding as done by `json.loads` and by pydantic's
`model_validate_json`: surrounding insignificant whitespace is ignored, one
value must span the whole rest of the text.  The fuel `2 * length + 2`
always exceeds the parser's recursion depth, which grows by at most two
per consumed character. -/
def json_loads (s : Str) : Option JVal :=
  let core := List.rdropWhile jsonWsChar (s.dropWhile jsonWsChar)
  match parseVal (2 * core.length + 2) core with
  | some (v, []) => some v
  | _ => none

/-- The resume branch of the `src/api/index.py` `parse_resume` route's
`try` block, the spec's `normalize_and_validate_resume`: clean the raw
text, then `ParsedResume.model_validate_json`; `ValidationError` and
`json.JSONDecodeError` are caught (`formatError`), nothing else is. -/
def normalize_and_validate_resume (raw : Str) : Outcome ParsedResume :=
  match json_loads (clean_json_response raw) with
  | none => Outcome.formatError
  | some j => validateParsedResume j

/-- The same boundary in `src/main.py`'s `parse_resume`, which has no
cleanup stage: the raw text goes straight to
`ParsedResume.model_validate_json`. -/
def normalize_and_validate_resume_main (raw : Str) : Outcome ParsedResume :=
  match json_loads raw with
  | none => Outcome.formatError
  | some j => validateParsedResume j

/-- The roadmap branch of the `src/api/index.py` `generate_roadmap` route's
`try` block, the spec's `normalize_and_validate_roadmap`. -/
def normalize_and_validate_roadmap (raw : Str) : Outcome RoadmapResponse :=
  match json_loads (clean_json_response raw) with
  | none => Outcome.formatError
  | some j => validateRoadmapResponse j

theorem dictGet_dictSet_self (d : JObj) (k : Str) (v : JVal) :
    dictGet (dictSet d k v) k = some v := by
  induction d with
  | nil => simp [dictGet, dictSet]
  | cons kv rest ih =>
    obtain ⟨k', v'⟩ := kv
    by_cases h : k' = k <;> simp [dictGet, dictSet, h, ih]

theorem dictGet_dictSet_ne (d : JObj) {k k' : Str} (h : k ≠ k') (v : JVal) :
    dictGet (dictSet d k v) k' = dictGet d k' := by
  induction d with
  | nil => simp [dictGet, dictSet, h]
  | cons kv rest ih =>
    obtain ⟨k0, v0⟩ := kv
    by_cases h0 : k0 = k
    · subst h0
      simp [dictGet, dictSet, h]
    · simp [dictGet, dictSet, h0, ih]

theorem dictHas_dictSet_self (d : JObj) (k : Str) (v : JVal) :
    dictHas (dictSet d k v) k = true := by
  simp [dictHas, dictGet_dictSet_self]

theorem dictHas_dictSet_ne (d : JObj) {k k' : Str} (h : k ≠ k') (v : JVal) :
    dictHas (dictSet d k v) k' = dictHas d k' := by
  simp [dictHas, dictGet_dictSet_ne d h v]

-- step lemmas
theorem expStep1_get_ne {k : Str} (hk : k ≠ pstr "role") (d : JObj) :
    dictGet (expStep1 d) k = dictGet d k := by
  unfold expStep1
  split
  · exact dictGet_dictSet_ne d (Ne.symm hk) _
  · rfl

theorem expStep2_get_ne {k : Str} (hk : k ≠ pstr "summary") (d : JObj) :
    dictGet (expStep2 d) k = dictGet d k := by
  unfold expStep2
  split
  · exact dictGet_dictSet_ne d (Ne.symm hk) _
  · rfl

theorem expStep1_has_ne {k : Str} (hk : k ≠ pstr "role") (d : JObj) :
    dictHas (expStep1 d) k = dictHas d k := by
  simp [dictHas, expStep1_get_ne hk]

theorem expStep2_has_ne {k : Str} (hk : k ≠ pstr "summary") (d : JObj) :
    dictHas (expStep2 d) k = dictHas d k := by
  simp [dictHas, expStep2_get_ne hk]

theorem expStep1_title_role (d : JObj) :
    dictHas (expStep1 d) (pstr "title") = true →
      dictHas (expStep1 d) (pstr "role") = true := by
  intro ht
  rw [expStep1_has_ne (by decide) d] at ht
  unfold expStep1
  by_cases hg : (dictHas d (pstr "title") && !dictHas d (pstr "role")) = true
  · rw [if_pos hg]
    exact dictHas_dictSet_self d _ _
  · rw [if_neg hg]
    simp only [Bool.and_eq_true, Bool.not_eq_true'] at hg
    rcases Bool.eq_false_or_eq_true (dictHas d (pstr "role")) with hr | hr
    · exact hr
    · exact absurd ⟨ht, hr⟩ hg

theorem expStep2_desc_summary (d : JObj) :
    dictHas (expStep2 d) (pstr "description") = true →
      dictHas (expStep2 d) (pstr "summary") = true := by
  intro ht
  rw [expStep2_has_ne (by decide) d] at ht
  unfold expStep2
  by_cases hg : (dictHas d (pstr "description") && !dictHas d (pstr "summary")) = true
  · rw [if_pos hg]
    exact dictHas_dictSet_self d _ _
  · rw [if_neg hg]
    simp only [Bool.and_eq_true, Bool.not_eq_true'] at hg
    rcases Bool.eq_false_or_eq_true (dictHas d (pstr "summary")) with hr | hr
    · exact hr
    · exact absurd ⟨ht, hr⟩ hg

theorem expStep2_title_role (d : JObj) :
    (dictHas d (pstr "title") = true → dictHas d (pstr "role") = true) →
    (dictHas (expStep2 d) (pstr "title") = true →
      dictHas (expStep2 d) (pstr "role") = true) := by
  intro h ht
  rw [expStep2_has_ne (by decide) d] at ht ⊢
  exact h ht

/-- Properties every successful output of `Experience.handle_ai_variations`
satisfies; they make a further application the identity. -/
def ExpInv (r : JObj) : Prop :=
  (dictHas r (pstr "title") = true → dictHas r (pstr "role") = true) ∧
  (dictHas r (pstr "description") = true → dictHas r (pstr "summary") = true) ∧
  (∀ v, dictGet r (pstr "role") = some v →
    ∃ s, v = JVal.str s ∧
      (strIn (pstr "project") (pyLower s) = true → dictHas r (pstr "company") = true))

theorem exp_out_inv {d r : JObj}
    (h : Experience.handle_ai_variations d = some r) : ExpInv r := by
  unfold Experience.handle_ai_variations at h
  generalize hd2 : expStep2 (expStep1 d) = d2 at h
  have htr : dictHas d2 (pstr "title") = true → dictHas d2 (pstr "role") = true := by
    rw [← hd2]
    exact expStep2_title_role _ (expStep1_title_role d)
  have hds : dictHas d2 (pstr "description") = true →
      dictHas d2 (pstr "summary") = true := by
    rw [← hd2]
    exact expStep2_desc_summary _
  unfold expStep3 at h
  rcases hrole : dictGet d2 (pstr "role") with _ | v
  · rw [hrole] at h
    simp only [Option.some.injEq] at h
    subst h
    exact ⟨htr, hds, fun v hv => by rw [hrole] at hv; cases hv⟩
  · rw [hrole] at h
    rcases v with _ | b | n | lx | s | xs | fs
    case str =>
      by_cases hg : (strIn (pstr "project") (pyLower s) && !dictHas d2 (pstr "company")) = true
      · simp only [hg, if_true, Option.some.injEq] at h
        subst h
        refine ⟨?_, ?_, ?_⟩
        · intro ht
          rw [dictHas_dictSet_ne d2 (by decide)] at ht ⊢
          exact htr ht
        · intro ht
          rw [dictHas_dictSet_ne d2 (by decide)] at ht ⊢
          exact hds ht
        · intro v hv
          rw [dictGet_dictSet_ne d2 (by decide)] at hv
          rw [hrole] at hv
          cases hv
          exact ⟨s, rfl, fun _ => dictHas_dictSet_self d2 _ _⟩
      · simp only [if_neg hg, Option.some.injEq] at h
        subst h
        refine ⟨htr, hds, ?_⟩
        intro v hv
        rw [hrole] at hv
        cases hv
        refine ⟨s, rfl, fun hp => ?_⟩
        simp only [Bool.and_eq_true, Bool.not_eq_true'] at hg
        rcases Bool.eq_false_or_eq_true (dictHas d2 (pstr "company")) with hc | hc
        · exact hc
        · exact absurd ⟨hp, hc⟩ hg
    all_goals cases h

theorem exp_inv_fixed {r : JObj} (hinv : ExpInv r) :
    Experience.handle_ai_variations r = some r := by
  obtain ⟨h1, h2, h3⟩ := hinv
  have e1 : expStep1 r = r := by
    have hA : ¬ (dictHas r (pstr "title") && !dictHas r (pstr "role")) = true := by
      simp only [Bool.and_eq_true, Bool.not_eq_true']
      rintro ⟨ht, hr⟩
      rw [h1 ht] at hr
      cases hr
    unfold expStep1
    rw [if_neg hA]
  have e2 : expStep2 r = r := by
    have hB : ¬ (dictHas r (pstr "description") && !dictHas r (pstr "summary")) = true := by
      simp only [Bool.and_eq_true, Bool.not_eq_true']
      rintro ⟨ht, hr⟩
      rw [h2 ht] at hr
      cases hr
    unfold expStep2
    rw [if_neg hB]
  have e3 : expStep3 r = some r := by
    unfold expStep3
    rcases hrole : dictGet r (pstr "role") with _ | v
    · rfl
    · obtain ⟨s, rfl, hs⟩ := h3 v hrole
      have hg : ¬ (strIn (pstr "project") (pyLower s) && !dictHas r (pstr "company")) = true := by
        simp only [Bool.and_eq_true, Bool.not_eq_true']
        rintro ⟨hp, hc⟩
        rw [hs hp] at hc
        cases hc
      show (if strIn (pstr "project") (pyLower s) && !dictHas r (pstr "company") then
              some (dictSet r (pstr "company") (JVal.str (pstr "Personal Project")))
            else some r) = some r
      rw [if_neg hg]
  show expStep3 (expStep2 (expStep1 r)) = some r
  rw [e1, e2, e3]

theorem education_reconcile_idem (d : JObj) :
    Education.handle_ai_variations (Education.handle_ai_variations d) =
      Education.handle_ai_variations d := by
  by_cases hu : dictHas d (pstr "university") = true
  · simp [Education.handle_ai_variations, hu]
  · rcases hinst : dictGet d (pstr "institution") with _ | v
    · rcases hloc : dictGet d (pstr "location") with _ | w
      · simp [Education.handle_ai_variations, hu, hinst, hloc]
      · simp [Education.handle_ai_variations, hu, hinst, hloc,
              dictHas_dictSet_self]
    · simp [Education.handle_ai_variations, hu, hinst, dictHas_dictSet_self]

/-- Claim C3: both reconciliation hooks are idempotent on every flat JSON
mapping: composing the Experience hook with itself (through `Option.bind`,
since it can raise) equals one application, and the Education hook is
literally idempotent. -/
theorem claim3_reconciliation_idempotent (d : JObj) :
    (Experience.handle_ai_variations d).bind Experience.handle_ai_variations =
      Experience.handle_ai_variations d ∧
    Education.handle_ai_variations (Education.handle_ai_variations d) =
      Education.handle_ai_variations d := by
  constructor
  · rcases h : Experience.handle_ai_variations d with _ | r
    · rfl
    · simpa [Option.bind] using exp_inv_fixed (exp_out_inv h)
  · exact education_reconcile_idem d

/-- A markdown fenced code block around `x`: the opening marker with a
(possibly empty) language tag on its own line, then `x`, then the closing
marker on its own line. -/
def wrapFenced (tag x : Str) : Str :=
  pstr "```" ++ tag ++ '\n' :: (x ++ '\n' :: pstr "```")

/-- Claim C4 (counterexample): reconciling `{"title": "Project Lead"}` does
not yield the mapping `{"role": "Project Lead", "company": "Personal
Project"}`: the hook copies `title` without deleting it, so the result
also carries the `title` key, on which the two mappings' lookups differ. -/
theorem claim4_counterexample :
    Experience.handle_ai_variations [(pstr "title", JVal.str (pstr "Project Lead"))] =
      some [(pstr "title", JVal.str (pstr "Project Lead")),
            (pstr "role", JVal.str (pstr "Project Lead")),
            (pstr "company", JVal.str (pstr "Personal Project"))] ∧
    dictGet [(pstr "title", JVal.str (pstr "Project Lead")),
             (pstr "role", JVal.str (pstr "Project Lead")),
             (pstr "company", JVal.str (pstr "Personal Project"))] (pstr "title") ≠
      dictGet [(pstr "role", JVal.str (pstr "Project Lead")),
               (pstr "company", JVal.str (pstr "Personal Project"))] (pstr "title") :=
  ⟨rfl, fun h => Option.noConfusion h⟩

/-- Claim C4 (amended): reconciling `{"title": "Project Lead"}` yields
`{"title": "Project Lead", "role": "Project Lead", "company": "Personal
Project"}` — `title` is copied into `role` (and retained), and since the
resolved role lower-cased contains "project" and `company` is absent,
`company` is set to the literal "Personal Project". -/
theorem claim4_amended :
    Experience.handle_ai_variations [(pstr "title", JVal.str (pstr "Project Lead"))] =
      some [(pstr "title", JVal.str (pstr "Project Lead")),
            (pstr "role", JVal.str (pstr "Project Lead")),
            (pstr "company", JVal.str (pstr "Personal Project"))] := rfl

/-- Claim C5: on any Education mapping without a `university` key, the
aliases `institution` then `location` are tried in that order: if
`institution` is present its value is copied into `university` (so it wins
whether or not `location` is present); otherwise `university` receives the
value of `location` (both lookups agreeing when `location` is absent too). -/
theorem claim5_education_alias_order (d : JObj)
    (h : dictHas d (pstr "university") = false) :
    (dictHas d (pstr "institution") = true →
      dictGet (Education.handle_ai_variations d) (pstr "university") =
        dictGet d (pstr "institution")) ∧
    (dictHas d (pstr "institution") = false →
      dictGet (Education.handle_ai_variations d) (pstr "university") =
        dictGet d (pstr "location")) := by
  have hnone : dictGet d (pstr "university") = none := by
    rcases hg : dictGet d (pstr "university") with _ | v
    · rfl
    · rw [dictHas, hg] at h
      cases h
  constructor
  · intro hi
    rcases hv : dictGet d (pstr "institution") with _ | v
    · rw [dictHas, hv] at hi
      cases hi
    · simp [Education.handle_ai_variations, dictHas, hnone, hv, dictGet_dictSet_self]
  · intro hi
    rcases hv : dictGet d (pstr "institution") with _ | v
    · rcases hl : dictGet d (pstr "location") with _ | w
      · simp [Education.handle_ai_variations, dictHas, hnone, hv, hl]
      · simp [Education.handle_ai_variations, dictHas, hnone, hv, hl, dictGet_dictSet_self]
    · rw [dictHas, hv] at hi
      cases hi

/-- Witness for C5 at `{"location": "MIT"}`: no `university`, no
`institution`, so `university` receives the `location` value. -/
theorem claim5_education_alias_order_witness :
    dictHas [(pstr "location", JVal.str (pstr "MIT"))] (pstr "university") = false ∧
    dictGet (Education.handle_ai_variations [(pstr "location", JVal.str (pstr "MIT"))])
        (pstr "university") =
      dictGet [(pstr "location", JVal.str (pstr "MIT"))] (pstr "location") :=
  ⟨by decide, (claim5_education_alias_order _ (by decide)).2 (by decide)⟩

/-- Claim C8: the fenced roadmap text `` ```json\n{"roadmap": []}\n``` ``
normalizes and validates to `RoadmapResponse(roadmap=[])`. -/
theorem claim8_roadmap_fenced_empty :
    normalize_and_validate_roadmap (pstr "```json\n\x7b\"roadmap\": []\x7d\n```") =
      Outcome.ok ⟨[]⟩ := by decide

/-- Claim C1 (code bug): on the decoded-JSON input
`{"skills": {}, "experience": [{"role": 1}], "education": []}` — valid
JSON whose `role` is merely not a string — both variants' pipelines let an
`AttributeError` (from `data.get('role', '').lower()` in the Experience
hook) escape the `except (ValidationError, json.JSONDecodeError)` clause,
instead of producing the claimed FormatError; a JSON-decode failure such
as `not json at all` is, by contrast, caught as claimed. -/
theorem claim1_nonstring_role_uncaught :
    normalize_and_validate_resume
        (pstr "\x7b\"skills\": \x7b\x7d, \"experience\": [\x7b\"role\": 1\x7d], \"education\": []\x7d") =
      Outcome.uncaught ∧
    normalize_and_validate_resume_main
        (pstr "\x7b\"skills\": \x7b\x7d, \"experience\": [\x7b\"role\": 1\x7d], \"education\": []\x7d") =
      Outcome.uncaught ∧
    normalize_and_validate_resume (pstr "not json at all") = Outcome.formatError :=
  ⟨by decide, by decide, by decide⟩

/-- Claim C6 (counterexample): validation succeeds on a resume whose
experience role, education degree and university are all the empty string,
so the claimed non-emptiness invariant does not hold. -/
theorem claim6_counterexample :
    normalize_and_validate_resume
        (pstr "\x7b\"skills\": \x7b\x7d, \"experience\": [\x7b\"role\": \"\"\x7d], \"education\": [\x7b\"degree\": \"\", \"university\": \"\"\x7d]\x7d") =
      Outcome.ok ⟨[], [⟨[], none, none⟩], [⟨[], [], none⟩]⟩ := by decide

/-- Claim C2 (counterexample): `clean_json_response` is not idempotent: on
``"`````` x ``````"`` one application yields ``"``` x ```"``, whose fences
a second application strips further. -/
theorem claim2_counterexample :
    clean_json_response (clean_json_response (pstr "`````` x ``````")) ≠
      clean_json_response (pstr "`````` x ``````") := by decide

/-- Claim C7 (counterexample): for the fence-free content `hi` wrapped with
language tag `python`, cleanup returns `python\nhi`, not `trim "hi"`: the
code strips only the `json` language tag. -/
theorem claim7_counterexample :
    strIn (pstr "```") (pstr "hi") = false ∧
    clean_json_response (wrapFenced (pstr "python") (pstr "hi")) ≠ pyStrip (pstr "hi") :=
  ⟨by decide, by decide⟩

theorem dropWhile_rdropWhile_dropWhile (p : Char → Bool) (l : Str) :
    List.dropWhile p (List.rdropWhile p (List.dropWhile p l)) =
      List.rdropWhile p (List.dropWhile p l) := by
  rcases hm : List.rdropWhile p (List.dropWhile p l) with _ | ⟨a, l'⟩
  · rfl
  · have hpre : (a :: l') <+: List.dropWhile p l := hm ▸ List.rdropWhile_prefix p _
    obtain ⟨rest, hrest⟩ := hpre
    have hne : List.dropWhile p l ≠ [] := by
      rw [← hrest]
      simp
    have hhead : (List.dropWhile p l).head? = some a := by
      rw [← hrest]
      rfl
    have hpa : p a = false := by
      rw [List.head?_eq_head hne] at hhead
      rw [← Option.some.inj hhead]
      exact List.head_dropWhile_not p l hne
    rw [List.dropWhile_cons_of_neg (by simp [hpa])]

theorem pyStrip_idem (l : Str) : pyStrip (pyStrip l) = pyStrip l := by
  unfold pyStrip
  rw [dropWhile_rdropWhile_dropWhile, List.rdropWhile_idempotent]

theorem pyStrip_cons_ws {c : Char} (hc : pyWsChar c = true) (l : Str) :
    pyStrip (c :: l) = pyStrip l := by
  unfold pyStrip
  rw [List.dropWhile_cons_of_pos hc]

theorem pyStrip_concat_ws {c : Char} (hc : pyWsChar c = true) (l : Str) :
    pyStrip (l ++ [c]) = pyStrip l := by
  unfold pyStrip
  rcases he : List.dropWhile pyWsChar l with _ | ⟨a, m⟩
  · rw [List.dropWhile_append, he]
    simp [List.dropWhile_cons_of_pos hc]
  · rw [List.dropWhile_append, he]
    simp only [List.isEmpty_cons, Bool.false_eq_true, if_false]
    rw [List.rdropWhile_concat_pos pyWsChar _ c hc]

theorem clean_json_response_stripped (x : Str) :
    pyStrip (clean_json_response x) = clean_json_response x := by
  unfold clean_json_response
  exact pyStrip_idem _

theorem fence_marker_of_json_marker {y : Str}
    (h : (pstr "```json").isPrefixOf y = true) :
    (pstr "```").isPrefixOf y = true := by
  rw [List.isPrefixOf_iff_prefix] at h ⊢
  exact List.IsPrefix.trans ⟨pstr "json", rfl⟩ h

/-- Claim C2 (amended): `clean_json_response` is idempotent on every input
whose cleaned form neither starts nor ends with the fence marker ```` ``` ````:
cleanup output is already stripped, so with no fence marker exposed at
either end a second application changes nothing. -/
theorem claim2_amended_idempotent_no_fences (x : Str)
    (h1 : (pstr "```").isPrefixOf (clean_json_response x) = false)
    (h2 : (pstr "```").isSuffixOf (clean_json_response x) = false) :
    clean_json_response (clean_json_response x) = clean_json_response x := by
  have h1j : (pstr "```json").isPrefixOf (clean_json_response x) = false := by
    rcases hb : (pstr "```json").isPrefixOf (clean_json_response x) with _ | _
    · rfl
    · rw [fence_marker_of_json_marker hb] at h1
      cases h1
  conv_lhs => rw [clean_json_response]
  simp [clean_json_response_stripped, h1j, h1, h2]

/-- Witness for the amended C2 at input `abc`. -/
theorem claim2_amended_idempotent_no_fences_witness :
    (pstr "```").isPrefixOf (clean_json_response (pstr "abc")) = false ∧
    (pstr "```").isSuffixOf (clean_json_response (pstr "abc")) = false ∧
    clean_json_response (clean_json_response (pstr "abc")) = clean_json_response (pstr "abc") :=
  ⟨by decide, by decide,
    claim2_amended_idempotent_no_fences (pstr "abc") (by decide) (by decide)⟩

/-- Claim C7 (amended): wrapping any fence-free `x` in a fenced block whose
language tag is either absent or exactly `json` — the only tag the code
strips — and cleaning returns `trim x`. -/
theorem claim7_amended_cleanup_unwraps (tag x : Str)
    (htag : tag = [] ∨ tag = pstr "json")
    (_hx : strIn (pstr "```") x = false) :
    clean_json_response (wrapFenced tag x) = pyStrip x := by
  have hz : ('\n' :: (x ++ '\n' :: pstr "```")) = ('\n' :: (x ++ ['\n'])) ++ pstr "```" := by
    simp
  have hy : pyStrip ('\n' :: (x ++ ['\n'])) = pyStrip x := by
    rw [pyStrip_cons_ws (by decide), pyStrip_concat_ws (by decide)]
  have hsuf : (pstr "```").isSuffixOf ('\n' :: (x ++ '\n' :: pstr "```")) = true := by
    rw [List.isSuffixOf_iff_suffix, hz]
    exact List.suffix_append _ _
  have htake : List.take (('\n' :: (x ++ '\n' :: pstr "```")).length - 3)
      ('\n' :: (x ++ '\n' :: pstr "```")) = '\n' :: (x ++ ['\n']) := by
    rw [hz]
    have hlen : ((('\n' :: (x ++ ['\n'])) ++ pstr "```").length - 3) =
        ('\n' :: (x ++ ['\n'])).length := by
      simp [List.length_append, show (pstr "```").length = 3 from rfl]
    rw [hlen]
    exact List.take_left _ _
  have hshape : wrapFenced tag x =
      (pstr "```" ++ tag ++ ('\n' :: (x ++ ['\n', '`', '`']))) ++ ['`'] := by
    simp [wrapFenced, show pstr "```" = ['`', '`', '`'] from rfl]
  have hstrip : pyStrip (wrapFenced tag x) = wrapFenced tag x := by
    have hA : List.dropWhile pyWsChar (wrapFenced tag x) = wrapFenced tag x := by
      rw [show wrapFenced tag x =
            '`' :: ('`' :: '`' :: (tag ++ '\n' :: (x ++ '\n' :: pstr "```"))) from rfl]
      exact List.dropWhile_cons_of_neg (by decide)
    have hB : List.rdropWhile pyWsChar (wrapFenced tag x) = wrapFenced tag x := by
      rw [hshape]
      exact List.rdropWhile_concat_neg pyWsChar _ '`' (by decide)
    unfold pyStrip
    rw [hA, hB]
  rcases htag with rfl | rfl
  · have hnj : (pstr "```json").isPrefixOf (wrapFenced [] x) = false := rfl
    have hp3 : (pstr "```").isPrefixOf (wrapFenced [] x) = true := rfl
    have hd3 : List.drop 3 (wrapFenced [] x) = '\n' :: (x ++ '\n' :: pstr "```") := rfl
    rw [clean_json_response]
    simp only [hstrip, hnj, Bool.false_eq_true, if_false, hp3, if_true, hd3, hsuf, htake]
    exact hy
  · have hpj : (pstr "```json").isPrefixOf (wrapFenced (pstr "json") x) = true := rfl
    have hd7 : List.drop 7 (wrapFenced (pstr "json") x) = '\n' :: (x ++ '\n' :: pstr "```") := rfl
    have hp3 : (pstr "```").isPrefixOf ('\n' :: (x ++ '\n' :: pstr "```")) = false := rfl
    rw [clean_json_response]
    simp only [hstrip, hpj, if_true, hd7, hp3, Bool.false_eq_true, if_false, hsuf, htake]
    exact hy

/-- Witness for the amended C7: the fence-free content `{}` wrapped with
the `json` tag cleans to `trim "{}"`. -/
theorem claim7_amended_cleanup_unwraps_witness :
    ((pstr "json" = ([] : Str) ∨ pstr "json" = pstr "json") ∧
      strIn (pstr "```") (pstr "\x7b\x7d") = false) ∧
    clean_json_response (wrapFenced (pstr "json") (pstr "\x7b\x7d")) = pyStrip (pstr "\x7b\x7d") :=
  ⟨⟨Or.inr rfl, by decide⟩,
    claim7_amended_cleanup_unwraps (pstr "json") (pstr "\x7b\x7d") (Or.inr rfl) (by decide)⟩

theorem jsonWs_sub_pyWs {c : Char} (h : jsonWsChar c = true) : pyWsChar c = true := by
  simp only [jsonWsChar, Bool.or_eq_true, decide_eq_true_eq] at h
  rcases h with ((h | h) | h) | h <;> subst h <;> decide

theorem dropWhile_congr_of_takeWhile {p q : Char → Bool} (l : Str)
    (h : ∀ c ∈ l.takeWhile p, q c = true)
    (hqp : ∀ c, q c = true → p c = true) :
    l.dropWhile p = l.dropWhile q := by
  induction l with
  | nil => rfl
  | cons a t ih =>
    by_cases hp : p a = true
    · have ha : a ∈ (a :: t).takeWhile p := by
        rw [List.takeWhile_cons_of_pos hp]
        exact List.mem_cons_self _ _
      rw [List.dropWhile_cons_of_pos hp, List.dropWhile_cons_of_pos (h a ha)]
      apply ih
      intro c hc
      apply h
      rw [List.takeWhile_cons_of_pos hp]
      exact List.mem_cons_of_mem _ hc
    · have hq : ¬q a = true := fun hq => hp (hqp a hq)
      rw [List.dropWhile_cons_of_neg hp, List.dropWhile_cons_of_neg hq]

/-- Claim C10 (counterexample): on
`{"skills": {}, "experience": [], "education": []}` followed by a vertical
tab — whose trimmed form has no fence markers — the `src/main.py` pipeline
fails (the vertical tab is not JSON whitespace) while the
`src/api/index.py` pipeline succeeds (`str.strip()` removes it). -/
theorem claim10_counterexample :
    (pstr "```").isPrefixOf
        (pyStrip (pstr "\x7b\"skills\": \x7b\x7d, \"experience\": [], \"education\": []\x7d\x0b")) = false ∧
    (pstr "```").isSuffixOf
        (pyStrip (pstr "\x7b\"skills\": \x7b\x7d, \"experience\": [], \"education\": []\x7d\x0b")) = false ∧
    normalize_and_validate_resume
        (pstr "\x7b\"skills\": \x7b\x7d, \"experience\": [], \"education\": []\x7d\x0b") ≠
      normalize_and_validate_resume_main
        (pstr "\x7b\"skills\": \x7b\x7d, \"experience\": [], \"education\": []\x7d\x0b") :=
  ⟨by decide, by decide, by decide⟩

/-- Claim C10 (amended): the two variants' resume pipelines agree on every
input whose trimmed form neither starts nor ends with a fence marker,
provided the whitespace that `str.strip()` trims from the two ends consists
of JSON whitespace only (space, tab, newline, carriage return) — the
condition the counterexample's vertical tab violates. -/
theorem claim10_amended_pipelines_agree (t : Str)
    (hpre : (pstr "```").isPrefixOf (pyStrip t) = false)
    (hsuf : (pstr "```").isSuffixOf (pyStrip t) = false)
    (hws1 : ∀ c ∈ t.takeWhile pyWsChar, jsonWsChar c = true)
    (hws2 : ∀ c ∈ (t.dropWhile pyWsChar).reverse.takeWhile pyWsChar, jsonWsChar c = true) :
    normalize_and_validate_resume t = normalize_and_validate_resume_main t := by
  have hjson : (pstr "```json").isPrefixOf (pyStrip t) = false := by
    rcases hb : (pstr "```json").isPrefixOf (pyStrip t) with _ | _
    · rfl
    · rw [fence_marker_of_json_marker hb] at hpre
      cases hpre
  have hclean : clean_json_response t = pyStrip t := by
    rw [clean_json_response]
    simp [pyStrip_idem, hjson, hpre, hsuf]
  have hdrop : t.dropWhile pyWsChar = t.dropWhile jsonWsChar :=
    dropWhile_congr_of_takeWhile t hws1 (fun _ hc => jsonWs_sub_pyWs hc)
  have hstrip_eq : pyStrip t = List.rdropWhile jsonWsChar (t.dropWhile jsonWsChar) := by
    unfold pyStrip List.rdropWhile
    rw [← hdrop]
    congr 1
    exact dropWhile_congr_of_takeWhile _ hws2 (fun _ hc => jsonWs_sub_pyWs hc)
  have hcore : List.rdropWhile jsonWsChar ((pyStrip t).dropWhile jsonWsChar) =
      List.rdropWhile jsonWsChar (t.dropWhile jsonWsChar) := by
    rw [hstrip_eq, dropWhile_rdropWhile_dropWhile jsonWsChar t,
        List.rdropWhile_idempotent]
  have hloads : json_loads (pyStrip t) = json_loads t := by
    simp only [json_loads]
    rw [hcore]
  unfold normalize_and_validate_resume normalize_and_validate_resume_main
  rw [hclean, hloads]

/-- Witness for the amended C10 at `" {} "`. -/
theorem claim10_amended_pipelines_agree_witness :
    ((pstr "```").isPrefixOf (pyStrip (pstr " \x7b\x7d ")) = false ∧
      (pstr "```").isSuffixOf (pyStrip (pstr " \x7b\x7d ")) = false ∧
      (∀ c ∈ (pstr " \x7b\x7d ").takeWhile pyWsChar, jsonWsChar c = true) ∧
      (∀ c ∈ ((pstr " \x7b\x7d ").dropWhile pyWsChar).reverse.takeWhile pyWsChar,
        jsonWsChar c = true)) ∧
    normalize_and_validate_resume (pstr " \x7b\x7d ") =
      normalize_and_validate_resume_main (pstr " \x7b\x7d ") :=
  ⟨⟨by decide, by decide, by decide, by decide⟩,
    claim10_amended_pipelines_agree (pstr " \x7b\x7d ")
      (by decide) (by decide) (by decide) (by decide)⟩

theorem vCollect_forall2 {α : Type} {f : JVal → Vres α} {xs : List JVal} {ys : List α}
    (h : vCollect f xs = Vres.ok ys) :
    List.Forall₂ (fun x y => f x = Vres.ok y) xs ys := by
  induction xs generalizing ys with
  | nil =>
    simp only [vCollect] at h
    cases h
    exact List.Forall₂.nil
  | cons a t ih =>
    rcases hfa : f a with y | _ | _ <;>
      rcases hct : vCollect f t with ys' | _ | _ <;>
        simp only [vCollect, hfa, hct] at h <;> cases h
    exact List.Forall₂.cons hfa (ih hct)

theorem vReqStr_ok {v : Option JVal} {s : Str} (h : vReqStr v = Vres.ok s) :
    v = some (JVal.str s) := by
  rcases v with _ | j
  · cases h
  · rcases j with _ | b | n | lx | s' | xs | d <;> simp [vReqStr] at h
    rw [h]

theorem vList_ok {α : Type} {f : JVal → Vres α} {v : Option JVal} {ys : List α}
    (h : vList f v = Vres.ok ys) :
    ∃ xs, v = some (JVal.arr xs) ∧ vCollect f xs = Vres.ok ys := by
  rcases v with _ | j
  · cases h
  · rcases j with _ | b | n | lx | s' | xs | d <;> simp [vList] at h
    exact ⟨xs, rfl, h⟩

theorem vExperience_ok_shape {x : JVal} {e : Experience}
    (h : vExperience x = Vres.ok e) :
    ∃ dx d2, x = JVal.obj dx ∧ Experience.handle_ai_variations dx = some d2 ∧
      dictGet d2 (pstr "role") = some (JVal.str e.role) := by
  rcases x with _ | b | n | lx | s | xs | dx <;> simp only [vExperience] at h <;>
    try cases h
  rcases hrec : Experience.handle_ai_variations dx with _ | d2
  · rw [hrec] at h
    cases h
  · rw [hrec] at h
    rcases hrole : vReqStr (dictGet d2 (pstr "role")) with r | _ | _ <;>
      rcases hcomp : vOptStr (dictGet d2 (pstr "company")) with c | _ | _ <;>
        rcases hsum : vOptStr (dictGet d2 (pstr "summary")) with sm | _ | _ <;>
          simp only [hrole, hcomp, hsum] at h <;> cases h
    exact ⟨dx, d2, rfl, hrec, vReqStr_ok hrole⟩

theorem vEducation_ok_shape {x : JVal} {e : Education}
    (h : vEducation x = Vres.ok e) :
    ∃ dx, x = JVal.obj dx ∧
      dictGet (Education.handle_ai_variations dx) (pstr "degree") =
        some (JVal.str e.degree) ∧
      dictGet (Education.handle_ai_variations dx) (pstr "university") =
        some (JVal.str e.university) := by
  rcases x with _ | b | n | lx | s | xs | dx <;> simp only [vEducation] at h <;>
    try cases h
  rcases hdeg : vReqStr (dictGet (Education.handle_ai_variations dx) (pstr "degree"))
      with dg | _ | _ <;>
    rcases huni : vReqStr (dictGet (Education.handle_ai_variations dx) (pstr "university"))
        with u | _ | _ <;>
      rcases hgy : vOptInt (dictGet (Education.handle_ai_variations dx) (pstr "graduation_year"))
          with g | _ | _ <;>
        simp only [hdeg, huni, hgy] at h <;> cases h
  exact ⟨dx, rfl, vReqStr_ok hdeg, vReqStr_ok huni⟩

/-- Claim C6 (amended): a successfully validated `ParsedResume` does have,
for each element of its experience list, a `role` that is a string — equal
to the reconciled input element's `role` value — and for each element of
its education list `degree` and `university` strings; but the validator
does not require these strings to be non-empty (see the counterexample),
so "non-empty" must be weakened to "present and of string type". -/
theorem claim6_amended_validated_shape (j : JVal) (p : ParsedResume)
    (h : validateParsedResume j = Outcome.ok p) :
    ∃ d xs es,
      j = JVal.obj d ∧
      dictGet d (pstr "experience") = some (JVal.arr xs) ∧
      List.Forall₂ (fun x e => ∃ dx d2, x = JVal.obj dx ∧
        Experience.handle_ai_variations dx = some d2 ∧
        dictGet d2 (pstr "role") = some (JVal.str e.role)) xs p.experience ∧
      dictGet d (pstr "education") = some (JVal.arr es) ∧
      List.Forall₂ (fun x e => ∃ dx, x = JVal.obj dx ∧
        dictGet (Education.handle_ai_variations dx) (pstr "degree") =
          some (JVal.str e.degree) ∧
        dictGet (Education.handle_ai_variations dx) (pstr "university") =
          some (JVal.str e.university)) es p.education := by
  rcases j with _ | b | n | lx | s | xs | d <;> simp only [validateParsedResume] at h <;>
    try cases h
  rcases hs : vSkills (dictGet d (pstr "skills")) with sk | _ | _ <;>
    rcases he : vList vExperience (dictGet d (pstr "experience")) with es' | _ | _ <;>
      rcases hed : vList vEducation (dictGet d (pstr "education")) with eds' | _ | _ <;>
        simp only [hs, he, hed] at h <;> cases h
  obtain ⟨xs, hxs, hcx⟩ := vList_ok he
  obtain ⟨es, hes, hce⟩ := vList_ok hed
  refine ⟨d, xs, es, rfl, hxs, ?_, hes, ?_⟩
  · exact (vCollect_forall2 hcx).imp (fun _ _ hx => vExperience_ok_shape hx)
  · exact (vCollect_forall2 hce).imp (fun _ _ hx => vEducation_ok_shape hx)

/-- Witness for the amended C6 on a concrete successful validation. -/
theorem claim6_amended_validated_shape_witness :
    validateParsedResume
        (JVal.obj [(pstr "skills", JVal.obj []),
                   (pstr "experience", JVal.arr [JVal.obj [(pstr "role", JVal.str (pstr "Dev"))]]),
                   (pstr "education", JVal.arr [])]) =
      Outcome.ok ⟨[], [⟨pstr "Dev", none, none⟩], []⟩ ∧
    ∃ d xs es,
      (JVal.obj [(pstr "skills", JVal.obj []),
                 (pstr "experience", JVal.arr [JVal.obj [(pstr "role", JVal.str (pstr "Dev"))]]),
                 (pstr "education", JVal.arr [])]) = JVal.obj d ∧
      dictGet d (pstr "experience") = some (JVal.arr xs) ∧
      List.Forall₂ (fun x e => ∃ dx d2, x = JVal.obj dx ∧
        Experience.handle_ai_variations dx = some d2 ∧
        dictGet d2 (pstr "role") = some (JVal.str e.role)) xs
        (ParsedResume.experience ⟨[], [⟨pstr "Dev", none, none⟩], []⟩) ∧
      dictGet d (pstr "education") = some (JVal.arr es) ∧
      List.Forall₂ (fun x e => ∃ dx, x = JVal.obj dx ∧
        dictGet (Education.handle_ai_variations dx) (pstr "degree") =
          some (JVal.str e.degree) ∧
        dictGet (Education.handle_ai_variations dx) (pstr "university") =
          some (JVal.str e.university)) es
        (ParsedResume.education ⟨[], [⟨pstr "Dev", none, none⟩], []⟩) :=
  ⟨rfl, claim6_amended_validated_shape _ _ rfl⟩

/-- One lowercase hex digit, as the serializer's `\u00XX` escapes use. -/
def hexDigitChar (n : Nat) : Char :=
  if n < 10 then Char.ofNat ('0'.toNat + n) else Char.ofNat ('a'.toNat + (n - 10))

/-- Serialization of one character inside a JSON string, as pydantic's
`model_dump_json` writer escapes it: the two mandatory escapes, the five
short control escapes, `\u00XX` for the remaining control characters, and
everything else written literally. -/
def escapeChar (c : Char) : Str :=
  if c = '"' then ['\\', '"']
  else if c = '\\' then ['\\', '\\']
  else if c = '\x08' then ['\\', 'b']
  else if c = '\x0c' then ['\\', 'f']
  else if c = '\n' then ['\\', 'n']
  else if c = '\r' then ['\\', 'r']
  else if c = '\t' then ['\\', 't']
  else if c.toNat < 32 then
    '\\' :: 'u' :: '0' :: '0' :: hexDigitChar (c.toNat / 16) :: [hexDigitChar (c.toNat % 16)]
  else [c]

/-- A serialized JSON string literal. -/
def renderStr (s : Str) : Str := '"' :: ((s.map escapeChar).flatten ++ ['"'])

/-- Decimal digits of a natural number, most significant first. -/
def natDigits (n : Nat) : Str :=
  if _h : n < 10 then [Char.ofNat ('0'.toNat + n)]
  else natDigits (n / 10) ++ [Char.ofNat ('0'.toNat + n % 10)]
termination_by n
decreasing_by exact Nat.div_lt_self (by omega) (by omega)

/-- A serialized JSON integer literal. -/
def renderInt (n : Int) : Str :=
  match n with
  | Int.ofNat m => natDigits m
  | Int.negSucc m => '-' :: natDigits (m + 1)

/-- An `Optional[str]` field value as serialized. -/
def renderOptStr : Option Str → Str
  | none => pstr "null"
  | some s => renderStr s

/-- An `Optional[int]` field value as serialized. -/
def renderOptInt : Option Int → Str
  | none => pstr "null"
  | some n => renderInt n

/-- Comma-separated concatenation, as JSON arrays and objects join their
parts. -/
def joinComma : List Str → Str
  | [] => []
  | [x] => x
  | x :: y :: t => x ++ ',' :: joinComma (y :: t)

/-- A serialized `List[str]` value. -/
def renderStrArr (ss : List Str) : Str :=
  '[' :: (joinComma (ss.map renderStr) ++ [']'])

/-- `model_dump_json` of one `Experience`, fields in declaration order,
`None` as `null`, compact separators. -/
def Experience.dumpJson (e : Experience) : Str :=
  pstr "\x7b\"role\":" ++ renderStr e.role ++ pstr ",\"company\":" ++
    renderOptStr e.company ++ pstr ",\"summary\":" ++ renderOptStr e.summary ++ pstr "\x7d"

/-- `model_dump_json` of one `Education`. -/
def Education.dumpJson (e : Education) : Str :=
  pstr "\x7b\"degree\":" ++ renderStr e.degree ++ pstr ",\"university\":" ++
    renderStr e.university ++ pstr ",\"graduation_year\":" ++
    renderOptInt e.graduation_year ++ pstr "\x7d"

/-- One serialized `skills` entry. -/
def skillsFieldJson (kv : Str × List Str) : Str :=
  renderStr kv.1 ++ ':' :: renderStrArr kv.2

/-- `ParsedResume.model_dump_json`: the serialized resume, fields in
declaration order, dict keys in insertion order. -/
def ParsedResume.model_dump_json (p : ParsedResume) : Str :=
  pstr "\x7b\"skills\":\x7b" ++ joinComma (p.skills.map skillsFieldJson) ++
    pstr "\x7d,\"experience\":[" ++ joinComma (p.experience.map Experience.dumpJson) ++
    pstr "],\"education\":[" ++ joinComma (p.education.map Education.dumpJson) ++ pstr "]\x7d"

/-- The decoded JSON value of a serialized `Experience`. -/
def Experience.dumpJVal (e : Experience) : JVal :=
  JVal.obj [(pstr "role", JVal.str e.role),
            (pstr "company", match e.company with
                             | none => JVal.null
                             | some s => JVal.str s),
            (pstr "summary", match e.summary with
                             | none => JVal.null
                             | some s => JVal.str s)]

/-- The decoded JSON value of a serialized `Education`. -/
def Education.dumpJVal (e : Education) : JVal :=
  JVal.obj [(pstr "degree", JVal.str e.degree),
            (pstr "university", JVal.str e.university),
            (pstr "graduation_year", match e.graduation_year with
                                     | none => JVal.null
                                     | some n => JVal.num n)]

/-- The decoded JSON value of a serialized `ParsedResume`. -/
def ParsedResume.dumpJVal (p : ParsedResume) : JVal :=
  JVal.obj [(pstr "skills",
              JVal.obj (p.skills.map (fun kv => (kv.1, JVal.arr (kv.2.map JVal.str))))),
            (pstr "experience", JVal.arr (p.experience.map Experience.dumpJVal)),
            (pstr "education", JVal.arr (p.education.map Education.dumpJVal))]

theorem vCollect_map {α : Type} {f : JVal → Vres α} {g : α → JVal}
    (hfg : ∀ x, f (g x) = Vres.ok x) (l : List α) :
    vCollect f (l.map g) = Vres.ok l := by
  induction l with
  | nil => rfl
  | cons a t ih => simp [vCollect, hfg, ih]

theorem vCollect_str_dump (l : List Str) :
    vCollect vStrVal (l.map JVal.str) = Vres.ok l :=
  @vCollect_map Str vStrVal JVal.str (fun _ => rfl) l

theorem vSkillsFields_dump (sk : List (Str × List Str)) :
    vSkillsFields (sk.map (fun kv => (kv.1, JVal.arr (kv.2.map JVal.str)))) =
      Vres.ok sk := by
  induction sk with
  | nil => rfl
  | cons kv t ih =>
    obtain ⟨k, v⟩ := kv
    simp [vSkillsFields, vStrList, vCollect_str_dump, ih]

theorem exp_hook_dump (r : Str) (vc vs : JVal) :
    Experience.handle_ai_variations
      [(pstr "role", JVal.str r), (pstr "company", vc), (pstr "summary", vs)] =
    some [(pstr "role", JVal.str r), (pstr "company", vc), (pstr "summary", vs)] := by
  apply exp_inv_fixed
  refine ⟨?_, ?_, ?_⟩
  · intro h
    rw [show dictHas [(pstr "role", JVal.str r), (pstr "company", vc), (pstr "summary", vs)]
          (pstr "title") = false from rfl] at h
    cases h
  · intro h
    rw [show dictHas [(pstr "role", JVal.str r), (pstr "company", vc), (pstr "summary", vs)]
          (pstr "description") = false from rfl] at h
    cases h
  · intro v hv
    rw [show dictGet [(pstr "role", JVal.str r), (pstr "company", vc), (pstr "summary", vs)]
          (pstr "role") = some (JVal.str r) from rfl] at hv
    cases hv
    exact ⟨r, rfl, fun _ => rfl⟩

theorem vExperience_dump (e : Experience) :
    vExperience (Experience.dumpJVal e) = Vres.ok e := by
  obtain ⟨r, c, s⟩ := e
  show vExperience (JVal.obj
    [(pstr "role", JVal.str r),
     (pstr "company", match c with | none => JVal.null | some cs => JVal.str cs),
     (pstr "summary", match s with | none => JVal.null | some ss => JVal.str ss)]) = _
  simp only [vExperience]
  rw [exp_hook_dump]
  rcases c with _ | cs <;> rcases s with _ | ss <;> rfl

theorem vEducation_dump (e : Education) :
    vEducation (Education.dumpJVal e) = Vres.ok e := by
  obtain ⟨dg, u, g⟩ := e
  rcases g with _ | n <;> rfl

theorem validateParsedResume_dump (p : ParsedResume) :
    validateParsedResume (ParsedResume.dumpJVal p) = Outcome.ok p := by
  obtain ⟨sk, es, ed⟩ := p
  show validateParsedResume (JVal.obj
    [(pstr "skills", JVal.obj (sk.map (fun kv => (kv.1, JVal.arr (kv.2.map JVal.str))))),
     (pstr "experience", JVal.arr (es.map Experience.dumpJVal)),
     (pstr "education", JVal.arr (ed.map Education.dumpJVal))]) = _
  simp only [validateParsedResume]
  rw [show dictGet
        [(pstr "skills", JVal.obj (sk.map (fun kv => (kv.1, JVal.arr (kv.2.map JVal.str))))),
         (pstr "experience", JVal.arr (es.map Experience.dumpJVal)),
         (pstr "education", JVal.arr (ed.map Education.dumpJVal))] (pstr "skills") =
        some (JVal.obj (sk.map (fun kv => (kv.1, JVal.arr (kv.2.map JVal.str))))) from rfl,
      show dictGet
        [(pstr "skills", JVal.obj (sk.map (fun kv => (kv.1, JVal.arr (kv.2.map JVal.str))))),
         (pstr "experience", JVal.arr (es.map Experience.dumpJVal)),
         (pstr "education", JVal.arr (ed.map Education.dumpJVal))] (pstr "experience") =
        some (JVal.arr (es.map Experience.dumpJVal)) from rfl,
      show dictGet
        [(pstr "skills", JVal.obj (sk.map (fun kv => (kv.1, JVal.arr (kv.2.map JVal.str))))),
         (pstr "experience", JVal.arr (es.map Experience.dumpJVal)),
         (pstr "education", JVal.arr (ed.map Education.dumpJVal))] (pstr "education") =
        some (JVal.arr (ed.map Education.dumpJVal)) from rfl]
  simp only [vSkills, vList]
  rw [vSkillsFields_dump, vCollect_map vExperience_dump es, vCollect_map vEducation_dump ed]

theorem hexVal_hexDigitChar {m : Nat} (h : m < 16) :
    hexVal? (hexDigitChar m) = some m := by
  interval_cases m <;> decide

theorem hex4_00 {m : Nat} (hm : m < 0x20) :
    hex4? '0' '0' (hexDigitChar (m / 16)) (hexDigitChar (m % 16)) = some m := by
  unfold hex4?
  rw [show hexVal? '0' = some 0 from rfl,
      hexVal_hexDigitChar (show m / 16 < 16 by omega),
      hexVal_hexDigitChar (show m % 16 < 16 by omega)]
  show some (((0 * 16 + 0) * 16 + m / 16) * 16 + m % 16) = some m
  exact congrArg some (by omega)

theorem parseEscape_u {m : Nat} (hm : m < 0x20) (X : Str) :
    parseEscape ('u' :: '0' :: '0' :: hexDigitChar (m / 16) :: hexDigitChar (m % 16) :: X) =
      (parseStringBody X).map (fun p => (Char.ofNat m :: p.1, p.2)) := by
  show (match hex4? '0' '0' (hexDigitChar (m / 16)) (hexDigitChar (m % 16)) with
        | none => none
        | some v =>
          if 0xd800 ≤ v && v ≤ 0xdbff then parseLowSurrogate v X
          else if 0xdc00 ≤ v && v ≤ 0xdfff then none
          else (parseStringBody X).map (fun (p : Str × Str) => (Char.ofNat v :: p.1, p.2))) = _
  rw [hex4_00 hm]
  show (if 0xd800 ≤ m && m ≤ 0xdbff then parseLowSurrogate m X
        else if 0xdc00 ≤ m && m ≤ 0xdfff then none
        else (parseStringBody X).map (fun (p : Str × Str) => (Char.ofNat m :: p.1, p.2))) = _
  rw [if_neg (by simp only [Bool.and_eq_true, decide_eq_true_eq]; omega),
      if_neg (by simp only [Bool.and_eq_true, decide_eq_true_eq]; omega)]

theorem parseStringBody_escape (s : Str) (rest : Str) :
    parseStringBody ((s.map escapeChar).flatten ++ '"' :: rest) = some (s, rest) := by
  induction s with
  | nil => rfl
  | cons c t ih =>
    show parseStringBody ((escapeChar c ++ (t.map escapeChar).flatten) ++ '"' :: rest) = _
    rw [List.append_assoc]
    by_cases h1 : c = '"'
    · subst h1
      rw [show escapeChar '"' = ['\\', '"'] from rfl]
      show parseStringBody ('\\' :: '"' :: ((t.map escapeChar).flatten ++ '"' :: rest)) = _
      rw [show ∀ X, parseStringBody ('\\' :: '"' :: X) =
            (parseStringBody X).map (fun (p : Str × Str) => ('"' :: p.1, p.2)) from fun _ => rfl,
          ih]
      rfl
    · by_cases h2 : c = '\\'
      · subst h2
        rw [show escapeChar '\\' = ['\\', '\\'] from rfl]
        show parseStringBody ('\\' :: '\\' :: ((t.map escapeChar).flatten ++ '"' :: rest)) = _
        rw [show ∀ X, parseStringBody ('\\' :: '\\' :: X) =
              (parseStringBody X).map (fun (p : Str × Str) => ('\\' :: p.1, p.2)) from fun _ => rfl,
            ih]
        rfl
      · by_cases h3 : c = '\x08'
        · subst h3
          rw [show escapeChar '\x08' = ['\\', 'b'] from rfl]
          show parseStringBody ('\\' :: 'b' :: ((t.map escapeChar).flatten ++ '"' :: rest)) = _
          rw [show ∀ X, parseStringBody ('\\' :: 'b' :: X) =
                (parseStringBody X).map (fun (p : Str × Str) => ('\x08' :: p.1, p.2)) from
              fun _ => rfl,
              ih]
          rfl
        · by_cases h4 : c = '\x0c'
          · subst h4
            rw [show escapeChar '\x0c' = ['\\', 'f'] from rfl]
            show parseStringBody ('\\' :: 'f' :: ((t.map escapeChar).flatten ++ '"' :: rest)) = _
            rw [show ∀ X, parseStringBody ('\\' :: 'f' :: X) =
                  (parseStringBody X).map (fun (p : Str × Str) => ('\x0c' :: p.1, p.2)) from
                fun _ => rfl,
                ih]
            rfl
          · by_cases h5 : c = '\n'
            · subst h5
              rw [show escapeChar '\n' = ['\\', 'n'] from rfl]
              show parseStringBody ('\\' :: 'n' :: ((t.map escapeChar).flatten ++ '"' :: rest)) = _
              rw [show ∀ X, parseStringBody ('\\' :: 'n' :: X) =
                    (parseStringBody X).map (fun (p : Str × Str) => ('\n' :: p.1, p.2)) from
                  fun _ => rfl,
                  ih]
              rfl
            · by_cases h6 : c = '\r'
              · subst h6
                rw [show escapeChar '\r' = ['\\', 'r'] from rfl]
                show parseStringBody
                    ('\\' :: 'r' :: ((t.map escapeChar).flatten ++ '"' :: rest)) = _
                rw [show ∀ X, parseStringBody ('\\' :: 'r' :: X) =
                      (parseStringBody X).map (fun (p : Str × Str) => ('\r' :: p.1, p.2)) from
                    fun _ => rfl,
                    ih]
                rfl
              · by_cases h7 : c = '\t'
                · subst h7
                  rw [show escapeChar '\t' = ['\\', 't'] from rfl]
                  show parseStringBody
                      ('\\' :: 't' :: ((t.map escapeChar).flatten ++ '"' :: rest)) = _
                  rw [show ∀ X, parseStringBody ('\\' :: 't' :: X) =
                        (parseStringBody X).map (fun (p : Str × Str) => ('\t' :: p.1, p.2)) from
                      fun _ => rfl,
                      ih]
                  rfl
                · by_cases h8 : c.toNat < 0x20
                  · have he : escapeChar c = ['\\', 'u', '0', '0',
                        hexDigitChar (c.toNat / 16), hexDigitChar (c.toNat % 16)] := by
                      unfold escapeChar
                      rw [if_neg h1, if_neg h2, if_neg h3, if_neg h4, if_neg h5, if_neg h6,
                          if_neg h7, if_pos h8]
                    rw [he]
                    show parseEscape ('u' :: '0' :: '0' :: hexDigitChar (c.toNat / 16) ::
                        hexDigitChar (c.toNat % 16) ::
                        ((t.map escapeChar).flatten ++ '"' :: rest)) = _
                    rw [parseEscape_u h8, ih]
                    show some (Char.ofNat c.toNat :: t, rest) = _
                    rw [Char.ofNat_toNat]
                  · have he : escapeChar c = [c] := by
                      unfold escapeChar
                      rw [if_neg h1, if_neg h2, if_neg h3, if_neg h4, if_neg h5, if_neg h6,
                          if_neg h7, if_neg h8]
                    rw [he]
                    show parseStringBody (c :: ((t.map escapeChar).flatten ++ '"' :: rest)) = _
                    unfold parseStringBody
                    rw [if_neg h1, if_neg h2, if_neg h8, ih]
                    rfl

theorem natDigits_ne_nil (n : Nat) : natDigits n ≠ [] := by
  unfold natDigits
  split
  · simp
  · simp

theorem char_digit_toNat {m : Nat} (hm : m < 10) :
    (Char.ofNat ('0'.toNat + m)).toNat = '0'.toNat + m := by
  interval_cases m <;> decide

theorem natDigits_digits (n : Nat) : ∀ c ∈ natDigits n, isDigitChar c = true := by
  induction n using natDigits.induct with
  | case1 n h =>
    intro c hc
    rw [natDigits, dif_pos h] at hc
    simp only [List.mem_singleton] at hc
    subst hc
    interval_cases n <;> decide
  | case2 n h ih =>
    intro c hc
    rw [natDigits, dif_neg h] at hc
    rcases List.mem_append.mp hc with hm | hm
    · exact ih c hm
    · simp only [List.mem_singleton] at hm
      subst hm
      have hr : n % 10 < 10 := by omega
      revert hr
      generalize n % 10 = r
      intro hr
      interval_cases r <;> decide

theorem natDigits_head_ne_zero {n : Nat} (hn : 1 ≤ n) :
    (natDigits n).head? ≠ some '0' := by
  induction n using natDigits.induct with
  | case1 n h =>
    rw [natDigits, dif_pos h]
    intro hc
    simp only [List.head?_cons, Option.some.injEq] at hc
    have h1 : 1 ≤ n := hn
    interval_cases n <;> simp_all
  | case2 n h ih =>
    rw [natDigits, dif_neg h]
    have hne := natDigits_ne_nil (n / 10)
    rcases hd : natDigits (n / 10) with _ | ⟨a, t⟩
    · exact absurd hd hne
    · intro hc
      simp only [List.cons_append, List.head?_cons, Option.some.injEq] at hc
      apply ih (by omega)
      rw [hd, hc]
      rfl

theorem digitsToNat_append (a : Nat) (xs ys : Str) :
    digitsToNat a (xs ++ ys) = digitsToNat (digitsToNat a xs) ys := by
  induction xs generalizing a with
  | nil => rfl
  | cons c t ih => exact ih (a * 10 + (c.toNat - '0'.toNat))

theorem digitsToNat_nil (a : Nat) : digitsToNat a [] = a := rfl

theorem digitsToNat_cons (a : Nat) (c : Char) (t : List Char) :
    digitsToNat a (c :: t) = digitsToNat (a * 10 + (c.toNat - '0'.toNat)) t := rfl

theorem digitsToNat_natDigits (n : Nat) :
    ∀ a, digitsToNat a (natDigits n) = a * 10 ^ (natDigits n).length + n := by
  induction n using natDigits.induct with
  | case1 n h =>
    intro a
    rw [natDigits, dif_pos h]
    rw [digitsToNat_cons, digitsToNat_nil, char_digit_toNat h]
    simp only [List.length_singleton, pow_one]
    omega
  | case2 n h ih =>
    intro a
    rw [natDigits, dif_neg h]
    rw [digitsToNat_append, ih a]
    rw [digitsToNat_cons, digitsToNat_nil,
        char_digit_toNat (show n % 10 < 10 by omega)]
    rw [List.length_append, List.length_singleton, pow_succ]
    have h0 : '0'.toNat + n % 10 - '0'.toNat = n % 10 := by omega
    rw [h0]
    have hdm : n / 10 * 10 + n % 10 = n := by omega
    calc (a * 10 ^ (natDigits (n / 10)).length + n / 10) * 10 + n % 10
        = a * (10 ^ (natDigits (n / 10)).length * 10) + (n / 10 * 10 + n % 10) := by ring
      _ = a * (10 ^ (natDigits (n / 10)).length * 10) + n := by rw [hdm]

/-- What may legally follow a serialized number so that the number token
ends exactly where the serializer ended it. -/
def numBoundary : Str → Prop
  | [] => True
  | c :: _ => isDigitChar c = false ∧ c ≠ '.' ∧ c ≠ 'e' ∧ c ≠ 'E'

theorem takeWhile_digits {ds rest : Str} (hds : ∀ c ∈ ds, isDigitChar c = true)
    (hrest : numBoundary rest) : (ds ++ rest).takeWhile isDigitChar = ds := by
  induction ds with
  | nil =>
    rcases rest with _ | ⟨c, t⟩
    · rfl
    · obtain ⟨h1, _⟩ := hrest
      exact List.takeWhile_cons_of_neg (by simp [h1])
  | cons a t ih =>
    rw [List.cons_append, List.takeWhile_cons_of_pos (hds a (List.mem_cons_self a t))]
    rw [ih (fun c hc => hds c (List.mem_cons_of_mem a hc))]

theorem parseFrac_boundary {rest : Str} (h : numBoundary rest) :
    parseFrac rest = some ([], rest) := by
  rcases rest with _ | ⟨c, t⟩
  · rfl
  · obtain ⟨_, h2, _, _⟩ := h
    show (if c = '.' then _ else some ([], c :: t)) = _
    rw [if_neg h2]

theorem parseExpPart_boundary {rest : Str} (h : numBoundary rest) :
    parseExpPart rest = some ([], rest) := by
  rcases rest with _ | ⟨c, t⟩
  · rfl
  · obtain ⟨_, _, h3, h4⟩ := h
    show (if c = 'e' || c = 'E' then _ else some ([], c :: t)) = _
    rw [if_neg (by simp [h3, h4])]

theorem digit_ne {c : Char} (h : isDigitChar c = true) :
    c ≠ '-' ∧ c ≠ '{' ∧ c ≠ '[' ∧ c ≠ '"' ∧ c ≠ 't' ∧ c ≠ 'f' ∧ c ≠ 'n' := by
  simp only [isDigitChar, Bool.and_eq_true, decide_eq_true_eq] at h
  obtain ⟨h1, h2⟩ := h
  refine ⟨?_, ?_, ?_, ?_, ?_, ?_, ?_⟩ <;> intro he <;> subst he
  · exact absurd h1 (by decide)
  · exact absurd h2 (by decide)
  · exact absurd h2 (by decide)
  · exact absurd h1 (by decide)
  · exact absurd h2 (by decide)
  · exact absurd h2 (by decide)
  · exact absurd h2 (by decide)

theorem parseNumberBody_natDigits (sgn : Str) (m : Nat) {rest : Str}
    (hrest : numBoundary rest) :
    parseNumberBody sgn (natDigits m ++ rest) =
      some (JVal.num (if sgn = [] then (Int.ofNat m) else -(Int.ofNat m)), rest) := by
  have htw : (natDigits m ++ rest).takeWhile isDigitChar = natDigits m :=
    takeWhile_digits (natDigits_digits m) hrest
  have hdrop : (natDigits m ++ rest).drop (natDigits m).length = rest :=
    List.drop_left _ _
  have hval : digitsToNat 0 (natDigits m) = m := by
    rw [digitsToNat_natDigits]
    simp
  simp only [parseNumberBody]
  rw [htw, hdrop, hval]
  simp only [parseFrac_boundary hrest, parseExpPart_boundary hrest]
  rcases hnd : natDigits m with _ | ⟨d0, ds'⟩
  · exact absurd hnd (natDigits_ne_nil m)
  · have hlz : (decide (d0 = '0') && decide (ds' ≠ [])) = false := by
      by_cases hds' : ds' = []
      · subst hds'
        simp
      · rcases Nat.eq_zero_or_pos m with rfl | hm
        · rw [natDigits, dif_pos (by omega)] at hnd
          cases hnd
          exact absurd rfl hds'
        · have hz := natDigits_head_ne_zero hm
          rw [hnd] at hz
          simp only [List.head?_cons, ne_eq] at hz
          have hd0 : d0 ≠ '0' := fun he => hz (by rw [he])
          simp [hd0]
    simp only [hlz, Bool.false_eq_true, if_false]
    rfl

theorem parseNumber_renderInt (n : Int) {rest : Str} (hrest : numBoundary rest) :
    parseNumber (renderInt n ++ rest) = some (JVal.num n, rest) := by
  cases n with
  | ofNat m =>
    obtain ⟨d, ds', hnd⟩ : ∃ d ds', natDigits m = d :: ds' := by
      rcases h : natDigits m with _ | ⟨d, ds'⟩
      · exact absurd h (natDigits_ne_nil m)
      · exact ⟨d, ds', rfl⟩
    have hd : isDigitChar d = true :=
      natDigits_digits m d (by rw [hnd]; exact List.mem_cons_self _ _)
    show parseNumber (natDigits m ++ rest) = _
    rw [hnd, List.cons_append]
    show (if d = '-' then parseNumberBody [d] (ds' ++ rest)
          else parseNumberBody [] (d :: (ds' ++ rest))) = _
    rw [if_neg (digit_ne hd).1, ← List.cons_append, ← hnd,
        parseNumberBody_natDigits [] m hrest]
    rfl
  | negSucc m =>
    show parseNumber ('-' :: (natDigits (m + 1) ++ rest)) = _
    show (if ('-' : Char) = '-' then parseNumberBody ['-'] (natDigits (m + 1) ++ rest)
          else parseNumberBody [] ('-' :: (natDigits (m + 1) ++ rest))) = _
    rw [if_pos rfl, parseNumberBody_natDigits ['-'] (m + 1) hrest]
    rfl

theorem parseVal_succ (f : Nat) (cs : Str) :
    parseVal (f + 1) cs =
      match cs.dropWhile jsonWsChar with
      | [] => none
      | c :: r =>
        if c = '{' then
          match r.dropWhile jsonWsChar with
          | '}' :: r2 => some (JVal.obj [], r2)
          | _ => (parseMembers f r).map (fun p => (JVal.obj (mkPyDict p.1), p.2))
        else if c = '[' then
          match r.dropWhile jsonWsChar with
          | ']' :: r2 => some (JVal.arr [], r2)
          | _ => (parseItems f r).map (fun p => (JVal.arr p.1, p.2))
        else if c = '"' then
          (parseStringBody r).map (fun p => (JVal.str p.1, p.2))
        else if c = 't' then
          match r with
          | 'r' :: 'u' :: 'e' :: r2 => some (JVal.jbool true, r2)
          | _ => none
        else if c = 'f' then
          match r with
          | 'a' :: 'l' :: 's' :: 'e' :: r2 => some (JVal.jbool false, r2)
          | _ => none
        else if c = 'n' then
          match r with
          | 'u' :: 'l' :: 'l' :: r2 => some (JVal.null, r2)
          | _ => none
        else if c = '-' || isDigitChar c then parseNumber (c :: r)
        else none := rfl

theorem parseItems_succ (f : Nat) (cs : Str) :
    parseItems (f + 1) cs =
      match parseVal f cs with
      | none => none
      | some (v, r) =>
        match r.dropWhile jsonWsChar with
        | ',' :: r2 => (parseItems f r2).map (fun p => (v :: p.1, p.2))
        | ']' :: r2 => some ([v], r2)
        | _ => none := rfl

theorem parseMembers_succ (f : Nat) (cs : Str) :
    parseMembers (f + 1) cs =
      match cs.dropWhile jsonWsChar with
      | '"' :: r =>
        match parseStringBody r with
        | none => none
        | some (k, r2) =>
          match r2.dropWhile jsonWsChar with
          | ':' :: r3 =>
            match parseVal f r3 with
            | none => none
            | some (v, r4) =>
              match r4.dropWhile jsonWsChar with
              | ',' :: r5 => (parseMembers f r5).map (fun p => ((k, v) :: p.1, p.2))
              | '}' :: r5 => some ([(k, v)], r5)
              | _ => none
          | _ => none
      | _ => none := rfl

theorem digit_not_ws {c : Char} (h : isDigitChar c = true) : jsonWsChar c = false := by
  rcases Bool.eq_false_or_eq_true (jsonWsChar c) with ht | hf
  · exfalso
    simp only [isDigitChar, Bool.and_eq_true, decide_eq_true_eq] at h
    obtain ⟨h1, h2⟩ := h
    simp only [jsonWsChar, Bool.or_eq_true, decide_eq_true_eq] at ht
    rcases ht with ((he | he) | he) | he <;> subst he
    · exact absurd h1 (by decide)
    · exact absurd h1 (by decide)
    · exact absurd h1 (by decide)
    · exact absurd h1 (by decide)
  · exact hf

theorem parseVal_succ_num {f : Nat} {d : Char} {X : Str}
    (h1 : ¬d = '{') (h2 : ¬d = '[') (h3 : ¬d = '"') (h4 : ¬d = 't') (h5 : ¬d = 'f')
    (h6 : ¬d = 'n') (h7 : (d = '-' || isDigitChar d) = true)
    (hws : jsonWsChar d = false) :
    parseVal (f + 1) (d :: X) = parseNumber (d :: X) := by
  rw [parseVal_succ, List.dropWhile_cons_of_neg (by simp [hws])]
  show (if d = '{' then _ else if d = '[' then _ else if d = '"' then _
        else if d = 't' then _ else if d = 'f' then _ else if d = 'n' then _
        else if d = '-' || isDigitChar d then parseNumber (d :: X) else none) = _
  rw [if_neg h1, if_neg h2, if_neg h3, if_neg h4, if_neg h5, if_neg h6, if_pos h7]

theorem parseVal_renderInt (f : Nat) (n : Int) {rest : Str} (hrest : numBoundary rest) :
    parseVal (f + 1) (renderInt n ++ rest) = some (JVal.num n, rest) := by
  obtain ⟨d, X, hshape, hd⟩ :
      ∃ d X, renderInt n ++ rest = d :: X ∧ (isDigitChar d = true ∨ d = '-') := by
    cases n with
    | ofNat m =>
      obtain ⟨d, ds', hnd⟩ : ∃ d ds', natDigits m = d :: ds' := by
        rcases h : natDigits m with _ | ⟨d, ds'⟩
        · exact absurd h (natDigits_ne_nil m)
        · exact ⟨d, ds', rfl⟩
      refine ⟨d, ds' ++ rest, ?_, Or.inl
        (natDigits_digits m d (by rw [hnd]; exact List.mem_cons_self _ _))⟩
      show natDigits m ++ rest = _
      rw [hnd, List.cons_append]
    | negSucc m => exact ⟨'-', natDigits (m + 1) ++ rest, rfl, Or.inr rfl⟩
  have hws : jsonWsChar d = false := by
    rcases hd with h | rfl
    · exact digit_not_ws h
    · decide
  have hnum : (d = '-' || isDigitChar d) = true := by
    rcases hd with h | rfl
    · simp [h]
    · simp
  rw [hshape, parseVal_succ_num ?h1 ?h2 ?h3 ?h4 ?h5 ?h6 hnum hws, ← hshape,
      parseNumber_renderInt n hrest]
  case h1 =>
    rcases hd with h | rfl
    · exact (digit_ne h).2.1
    · decide
  case h2 =>
    rcases hd with h | rfl
    · exact (digit_ne h).2.2.1
    · decide
  case h3 =>
    rcases hd with h | rfl
    · exact (digit_ne h).2.2.2.1
    · decide
  case h4 =>
    rcases hd with h | rfl
    · exact (digit_ne h).2.2.2.2.1
    · decide
  case h5 =>
    rcases hd with h | rfl
    · exact (digit_ne h).2.2.2.2.2.1
    · decide
  case h6 =>
    rcases hd with h | rfl
    · exact (digit_ne h).2.2.2.2.2.2
    · decide

theorem parseVal_renderStr (f : Nat) (s rest : Str) :
    parseVal (f + 1) (renderStr s ++ rest) = some (JVal.str s, rest) := by
  have hshape : renderStr s ++ rest = '"' :: ((s.map escapeChar).flatten ++ '"' :: rest) := by
    show ('"' :: ((s.map escapeChar).flatten ++ ['"'])) ++ rest = _
    simp
  rw [hshape, parseVal_succ]
  show (parseStringBody ((s.map escapeChar).flatten ++ '"' :: rest)).map
      (fun (p : Str × Str) => (JVal.str p.1, p.2)) = _
  rw [parseStringBody_escape]
  rfl

theorem parseVal_null (f : Nat) (rest : Str) :
    parseVal (f + 1) (pstr "null" ++ rest) = some (JVal.null, rest) := rfl

theorem parseVal_renderOptStr (f : Nat) (c : Option Str) (rest : Str) :
    parseVal (f + 1) (renderOptStr c ++ rest) =
      some ((match c with | none => JVal.null | some s => JVal.str s), rest) := by
  rcases c with _ | s
  · exact parseVal_null f rest
  · exact parseVal_renderStr f s rest

theorem parseVal_renderOptInt (f : Nat) (g : Option Int) {rest : Str}
    (hrest : numBoundary rest) :
    parseVal (f + 1) (renderOptInt g ++ rest) =
      some ((match g with | none => JVal.null | some n => JVal.num n), rest) := by
  rcases g with _ | n
  · exact parseVal_null f rest
  · exact parseVal_renderInt f n hrest

theorem parseMembers_step (f : Nat) (kb k A : Str) {v : JVal} {r4 : Str}
    (hk : ∀ X, parseStringBody (kb ++ X) = some (k, X))
    (hv : parseVal f (A ++ r4) = some (v, r4)) :
    parseMembers (f + 1) ('"' :: (kb ++ (':' :: (A ++ r4)))) =
      match r4.dropWhile jsonWsChar with
      | ',' :: r5 => (parseMembers f r5).map (fun p => ((k, v) :: p.1, p.2))
      | '}' :: r5 => some ([(k, v)], r5)
      | _ => none := by
  rw [parseMembers_succ]
  show (match parseStringBody (kb ++ (':' :: (A ++ r4))) with
        | none => none
        | some (k, r2) =>
          match r2.dropWhile jsonWsChar with
          | ':' :: r3 =>
            match parseVal f r3 with
            | none => none
            | some (v, r4) =>
              match r4.dropWhile jsonWsChar with
              | ',' :: r5 => (parseMembers f r5).map (fun (p : List (Str × JVal) × Str) => ((k, v) :: p.1, p.2))
              | '}' :: r5 => some ([(k, v)], r5)
              | _ => none
          | _ => none) = _
  rw [hk (':' :: (A ++ r4))]
  show (match parseVal f (A ++ r4) with
        | none => none
        | some (v, r4) =>
          match r4.dropWhile jsonWsChar with
          | ',' :: r5 => (parseMembers f r5).map (fun (p : List (Str × JVal) × Str) => ((k, v) :: p.1, p.2))
          | '}' :: r5 => some ([(k, v)], r5)
          | _ => none) = _
  rw [hv]

theorem parseVal_obj3 (f : Nat) (kb1 kb2 kb3 k1 k2 k3 A B C : Str) (va vb vc : JVal) (rest : Str)
    (hk1 : ∀ X, parseStringBody (kb1 ++ X) = some (k1, X))
    (hk2 : ∀ X, parseStringBody (kb2 ++ X) = some (k2, X))
    (hk3 : ∀ X, parseStringBody (kb3 ++ X) = some (k3, X))
    (hA : ∀ r, parseVal (f + 3) (A ++ r) = some (va, r))
    (hB : ∀ r, parseVal (f + 2) (B ++ r) = some (vb, r))
    (hC : parseVal (f + 1) (C ++ ('}' :: rest)) = some (vc, '}' :: rest)) :
    parseVal (f + 5)
        ('{' :: '"' :: (kb1 ++ (':' :: (A ++
          (',' :: '"' :: (kb2 ++ (':' :: (B ++
            (',' :: '"' :: (kb3 ++ (':' :: (C ++ ('}' :: rest)))))))))))))
      = some (JVal.obj (mkPyDict [(k1, va), (k2, vb), (k3, vc)]), rest) := by
  show parseVal (f + 4 + 1) _ = _
  rw [parseVal_succ]
  show (parseMembers (f + 3 + 1)
        ('"' :: (kb1 ++ (':' :: (A ++
          (',' :: '"' :: (kb2 ++ (':' :: (B ++
            (',' :: '"' :: (kb3 ++ (':' :: (C ++ ('}' :: rest)))))))))))))).map
      (fun (p : List (Str × JVal) × Str) => (JVal.obj (mkPyDict p.1), p.2)) = _
  rw [parseMembers_step (f + 3) kb1 k1 A hk1
    (hA (',' :: '"' :: (kb2 ++ (':' :: (B ++
      (',' :: '"' :: (kb3 ++ (':' :: (C ++ ('}' :: rest))))))))))]
  show ((parseMembers (f + 2 + 1)
        ('"' :: (kb2 ++ (':' :: (B ++
          (',' :: '"' :: (kb3 ++ (':' :: (C ++ ('}' :: rest)))))))))).map
      (fun (p : List (Str × JVal) × Str) => ((k1, va) :: p.1, p.2))).map
      (fun (p : List (Str × JVal) × Str) => (JVal.obj (mkPyDict p.1), p.2)) = _
  rw [parseMembers_step (f + 2) kb2 k2 B hk2
    (hB (',' :: '"' :: (kb3 ++ (':' :: (C ++ ('}' :: rest))))))]
  show (((parseMembers (f + 1 + 1)
        ('"' :: (kb3 ++ (':' :: (C ++ ('}' :: rest)))))).map
      (fun (p : List (Str × JVal) × Str) => ((k2, vb) :: p.1, p.2))).map
      (fun (p : List (Str × JVal) × Str) => ((k1, va) :: p.1, p.2))).map
      (fun (p : List (Str × JVal) × Str) => (JVal.obj (mkPyDict p.1), p.2)) = _
  rw [parseMembers_step (f + 1) kb3 k3 C hk3 hC]
  rfl

theorem expDump_shape (e : Experience) (rest : Str) :
    Experience.dumpJson e ++ rest =
      '{' :: '"' :: (pstr "role\"" ++ (':' :: (renderStr e.role ++
        (',' :: '"' :: (pstr "company\"" ++ (':' :: (renderOptStr e.company ++
          (',' :: '"' :: (pstr "summary\"" ++ (':' :: (renderOptStr e.summary ++
            ('}' :: rest)))))))))))) := by
  simp only [Experience.dumpJson, List.append_assoc]
  rfl

theorem parseVal_expDump (f : Nat) (e : Experience) (rest : Str) :
    parseVal (f + 5) (Experience.dumpJson e ++ rest) = some (Experience.dumpJVal e, rest) := by
  rw [expDump_shape]
  exact (parseVal_obj3 f (pstr "role\"") (pstr "company\"") (pstr "summary\"")
      (pstr "role") (pstr "company") (pstr "summary")
      (renderStr e.role) (renderOptStr e.company) (renderOptStr e.summary)
      (JVal.str e.role)
      (match e.company with | none => JVal.null | some s => JVal.str s)
      (match e.summary with | none => JVal.null | some s => JVal.str s) rest
      (fun X => rfl) (fun X => rfl) (fun X => rfl)
      (fun r => parseVal_renderStr (f + 2) e.role r)
      (fun r => parseVal_renderOptStr (f + 1) e.company r)
      (parseVal_renderOptStr f e.summary ('}' :: rest))).trans rfl

theorem eduDump_shape (e : Education) (rest : Str) :
    Education.dumpJson e ++ rest =
      '{' :: '"' :: (pstr "degree\"" ++ (':' :: (renderStr e.degree ++
        (',' :: '"' :: (pstr "university\"" ++ (':' :: (renderStr e.university ++
          (',' :: '"' :: (pstr "graduation_year\"" ++ (':' :: (renderOptInt e.graduation_year ++
            ('}' :: rest)))))))))))) := by
  simp only [Education.dumpJson, List.append_assoc]
  rfl

theorem parseVal_eduDump (f : Nat) (e : Education) (rest : Str) :
    parseVal (f + 5) (Education.dumpJson e ++ rest) = some (Education.dumpJVal e, rest) := by
  rw [eduDump_shape]
  exact (parseVal_obj3 f (pstr "degree\"") (pstr "university\"") (pstr "graduation_year\"")
      (pstr "degree") (pstr "university") (pstr "graduation_year")
      (renderStr e.degree) (renderStr e.university) (renderOptInt e.graduation_year)
      (JVal.str e.degree) (JVal.str e.university)
      (match e.graduation_year with | none => JVal.null | some n => JVal.num n) rest
      (fun X => rfl) (fun X => rfl) (fun X => rfl)
      (fun r => parseVal_renderStr (f + 2) e.degree r)
      (fun r => parseVal_renderStr (f + 1) e.university r)
      (parseVal_renderOptInt f e.graduation_year (by exact ⟨rfl, by decide, by decide, by decide⟩))).trans rfl

theorem parseItems_list {α : Type} (bound : Nat) (enc : α → Str) (dv : α → JVal)
    (helem : ∀ g a r, bound ≤ g → parseVal g (enc a ++ r) = some (dv a, r))
    (l : List α) : ∀ (f : Nat), l ≠ [] → l.length + bound ≤ f → ∀ rest,
      parseItems f (joinComma (l.map enc) ++ (']' :: rest)) = some (l.map dv, rest) := by
  induction l with
  | nil => intro f h; exact absurd rfl h
  | cons a t ih =>
    intro f _ hf rest
    simp only [List.length_cons] at hf
    obtain ⟨f', rfl⟩ : ∃ f', f = f' + 1 := ⟨f - 1, by omega⟩
    rcases t with _ | ⟨b, t'⟩
    · rw [parseItems_succ]
      show (match parseVal f' (enc a ++ (']' :: rest)) with
            | none => none
            | some (v, r) =>
              match r.dropWhile jsonWsChar with
              | ',' :: r2 => (parseItems f' r2).map (fun (p : List JVal × Str) => (v :: p.1, p.2))
              | ']' :: r2 => some ([v], r2)
              | _ => none) = _
      rw [helem f' a (']' :: rest) (by simp only [List.length_cons, List.length_nil] at hf; omega)]
      rfl
    · have hjoin : joinComma ((a :: b :: t').map enc) ++ (']' :: rest) =
          enc a ++ (',' :: (joinComma ((b :: t').map enc) ++ (']' :: rest))) := by
        show (enc a ++ ',' :: joinComma ((b :: t').map enc)) ++ (']' :: rest) = _
        rw [List.append_assoc]
        rfl
      rw [hjoin, parseItems_succ]
      show (match parseVal f' (enc a ++ (',' :: (joinComma ((b :: t').map enc) ++ (']' :: rest)))) with
            | none => none
            | some (v, r) =>
              match r.dropWhile jsonWsChar with
              | ',' :: r2 => (parseItems f' r2).map (fun (p : List JVal × Str) => (v :: p.1, p.2))
              | ']' :: r2 => some ([v], r2)
              | _ => none) = _
      rw [helem f' a (',' :: (joinComma ((b :: t').map enc) ++ (']' :: rest)))
        (by simp only [List.length_cons] at hf; omega)]
      show (parseItems f' (joinComma ((b :: t').map enc) ++ (']' :: rest))).map
          (fun (p : List JVal × Str) => (dv a :: p.1, p.2)) = _
      rw [ih f' (by simp) (by simp only [List.length_cons] at hf ⊢; omega) rest]
      rfl

theorem joinComma_cons (x : Str) (xs : List Str) : ∃ Y, joinComma (x :: xs) = x ++ Y := by
  rcases xs with _ | ⟨y, t⟩
  · exact ⟨[], (List.append_nil x).symm⟩
  · exact ⟨',' :: joinComma (y :: t), rfl⟩

theorem parseVal_arr {α : Type} (bound : Nat) (c0 : Char) (enc : α → Str) (dv : α → JVal)
    (hws : jsonWsChar c0 = false) (hne : c0 ≠ ']')
    (hhead : ∀ a, ∃ s, enc a = c0 :: s)
    (helem : ∀ g a r, bound ≤ g → parseVal g (enc a ++ r) = some (dv a, r))
    (l : List α) (f : Nat) (hf : l.length + bound ≤ f) (rest : Str) :
    parseVal (f + 1) ('[' :: (joinComma (l.map enc) ++ (']' :: rest))) =
      some (JVal.arr (l.map dv), rest) := by
  rcases l with _ | ⟨a, t⟩
  · rfl
  · rw [parseVal_succ]
    simp only [List.map_cons]
    show (match (joinComma (enc a :: t.map enc) ++ (']' :: rest)).dropWhile jsonWsChar with
          | ']' :: r2 => some (JVal.arr [], r2)
          | _ => (parseItems f (joinComma (enc a :: t.map enc) ++ (']' :: rest))).map
              (fun (p : List JVal × Str) => (JVal.arr p.1, p.2))) = _
    obtain ⟨s, hs⟩ := hhead a
    obtain ⟨Y, hY⟩ := joinComma_cons (enc a) (t.map enc)
    have hform : joinComma (enc a :: t.map enc) ++ (']' :: rest) =
        c0 :: (s ++ Y ++ (']' :: rest)) := by
      rw [hY, hs]
      rfl
    rw [hform, List.dropWhile_cons_of_neg (by rw [hws]; exact Bool.false_ne_true)]
    split
    · rename_i r2 heq
      simp only [List.cons.injEq] at heq
      exact absurd heq.1 hne
    · have hpi := parseItems_list bound enc dv helem (a :: t) f (List.cons_ne_nil a t)
        (by simpa using hf) rest
      simp only [List.map_cons] at hpi
      rw [← hform, hpi]
      rfl

theorem parseVal_renderStrArr (f : Nat) (ss : List Str) (rest : Str)
    (hf : ss.length + 1 ≤ f) :
    parseVal (f + 1) (renderStrArr ss ++ rest) = some (JVal.arr (ss.map JVal.str), rest) := by
  have hshape : renderStrArr ss ++ rest =
      '[' :: (joinComma (ss.map renderStr) ++ (']' :: rest)) := by
    show ('[' :: (joinComma (ss.map renderStr) ++ [']'])) ++ rest = _
    simp
  rw [hshape]
  exact parseVal_arr 1 '"' renderStr JVal.str rfl (by decide)
    (fun s => ⟨(s.map escapeChar).flatten ++ ['"'], rfl⟩)
    (fun g s r hg => by
      obtain ⟨g', rfl⟩ : ∃ g', g = g' + 1 := ⟨g - 1, by omega⟩
      exact parseVal_renderStr g' s r)
    ss f hf rest

theorem skillsField_shape (kv : Str × List Str) (R : Str) :
    skillsFieldJson kv ++ R =
      '"' :: (((kv.1.map escapeChar).flatten ++ ['"']) ++ (':' :: (renderStrArr kv.2 ++ R))) := by
  show (renderStr kv.1 ++ ':' :: renderStrArr kv.2) ++ R = _
  simp only [renderStr, List.append_assoc, List.cons_append, List.nil_append,
    List.singleton_append]

theorem parseMembers_skills (l : List (Str × List Str)) :
    ∀ (f : Nat), l ≠ [] →
      l.length + (l.map (fun kv => kv.2.length)).sum + 2 ≤ f → ∀ rest,
      parseMembers f (joinComma (l.map skillsFieldJson) ++ ('}' :: rest)) =
        some (l.map (fun kv => (kv.1, JVal.arr (kv.2.map JVal.str))), rest) := by
  induction l with
  | nil => intro f h; exact absurd rfl h
  | cons kv t ih =>
    intro f _ hf rest
    simp only [List.length_cons, List.map_cons, List.sum_cons] at hf
    obtain ⟨f', rfl⟩ : ∃ f', f = f' + 1 := ⟨f - 1, by omega⟩
    have hkey : ∀ X, parseStringBody (((kv.1.map escapeChar).flatten ++ ['"']) ++ X) =
        some (kv.1, X) := fun X => by
      rw [List.append_assoc]
      exact parseStringBody_escape kv.1 X
    rcases t with _ | ⟨b, t'⟩
    · show parseMembers (f' + 1) (skillsFieldJson kv ++ ('}' :: rest)) = _
      rw [skillsField_shape kv ('}' :: rest)]
      have hv : parseVal f' (renderStrArr kv.2 ++ ('}' :: rest)) =
          some (JVal.arr (kv.2.map JVal.str), '}' :: rest) := by
        obtain ⟨g, rfl⟩ : ∃ g, f' = g + 1 := ⟨f' - 1, by omega⟩
        exact parseVal_renderStrArr g kv.2 ('}' :: rest) (by omega)
      rw [parseMembers_step f' ((kv.1.map escapeChar).flatten ++ ['"']) kv.1
        (renderStrArr kv.2) hkey hv]
      rfl
    · show parseMembers (f' + 1)
        ((skillsFieldJson kv ++ ',' :: joinComma ((b :: t').map skillsFieldJson)) ++
          ('}' :: rest)) = _
      rw [List.append_assoc]
      show parseMembers (f' + 1)
        (skillsFieldJson kv ++
          (',' :: (joinComma ((b :: t').map skillsFieldJson) ++ ('}' :: rest)))) = _
      rw [skillsField_shape kv
        (',' :: (joinComma ((b :: t').map skillsFieldJson) ++ ('}' :: rest)))]
      have hv : parseVal f' (renderStrArr kv.2 ++
          (',' :: (joinComma ((b :: t').map skillsFieldJson) ++ ('}' :: rest)))) =
          some (JVal.arr (kv.2.map JVal.str),
            ',' :: (joinComma ((b :: t').map skillsFieldJson) ++ ('}' :: rest))) := by
        obtain ⟨g, rfl⟩ : ∃ g, f' = g + 1 := ⟨f' - 1, by omega⟩
        exact parseVal_renderStrArr g kv.2 _ (by omega)
      rw [parseMembers_step f' ((kv.1.map escapeChar).flatten ++ ['"']) kv.1
        (renderStrArr kv.2) hkey hv]
      show (parseMembers f' (joinComma ((b :: t').map skillsFieldJson) ++ ('}' :: rest))).map
          (fun (p : List (Str × JVal) × Str) => ((kv.1, JVal.arr (kv.2.map JVal.str)) :: p.1, p.2)) = _
      rw [ih f' (by simp)
        (by simp only [List.length_cons, List.map_cons, List.sum_cons] at hf ⊢; omega) rest]
      rfl

theorem parseVal_skillsObj (f : Nat) (sk : List (Str × List Str)) (rest : Str)
    (hf : sk.length + (sk.map (fun kv => kv.2.length)).sum + 2 ≤ f) :
    parseVal (f + 1) ('{' :: (joinComma (sk.map skillsFieldJson) ++ ('}' :: rest))) =
      some (JVal.obj (mkPyDict (sk.map (fun kv => (kv.1, JVal.arr (kv.2.map JVal.str))))), rest) := by
  rcases sk with _ | ⟨kv, t⟩
  · rfl
  · rw [parseVal_succ]
    show (match (joinComma ((kv :: t).map skillsFieldJson) ++ ('}' :: rest)).dropWhile jsonWsChar with
          | '}' :: r2 => some (JVal.obj [], r2)
          | _ => (parseMembers f (joinComma ((kv :: t).map skillsFieldJson) ++ ('}' :: rest))).map
              (fun (p : List (Str × JVal) × Str) => (JVal.obj (mkPyDict p.1), p.2))) = _
    obtain ⟨tl, htl⟩ : ∃ tl,
        joinComma ((kv :: t).map skillsFieldJson) ++ ('}' :: rest) = '"' :: tl := by
      obtain ⟨Y, hY⟩ := joinComma_cons (skillsFieldJson kv) (t.map skillsFieldJson)
      refine ⟨((kv.1.map escapeChar).flatten ++ ['"']) ++
        (':' :: (renderStrArr kv.2 ++ (Y ++ ('}' :: rest)))), ?_⟩
      show joinComma (skillsFieldJson kv :: t.map skillsFieldJson) ++ ('}' :: rest) = _
      rw [hY, List.append_assoc, skillsField_shape kv (Y ++ ('}' :: rest))]
    rw [htl, List.dropWhile_cons_of_neg (by decide)]
    split
    · rename_i r2 heq
      simp only [List.cons.injEq] at heq
      exact absurd heq.1 (by decide)
    · rw [← htl, parseMembers_skills (kv :: t) f (List.cons_ne_nil kv t) hf rest]
      rfl

theorem brace_wrap (X r : Str) : ('{' :: (X ++ ['}'])) ++ r = '{' :: (X ++ ('}' :: r)) := by
  simp

theorem bracket_wrap (X r : Str) : ('[' :: (X ++ [']'])) ++ r = '[' :: (X ++ (']' :: r)) := by
  simp

theorem resumeDump_shape (p : ParsedResume) (rest : Str) :
    ParsedResume.model_dump_json p ++ rest =
      '{' :: '"' :: (pstr "skills\"" ++ (':' ::
        (('{' :: (joinComma (p.skills.map skillsFieldJson) ++ ['}'])) ++
          (',' :: '"' :: (pstr "experience\"" ++ (':' ::
            (('[' :: (joinComma (p.experience.map Experience.dumpJson) ++ [']'])) ++
              (',' :: '"' :: (pstr "education\"" ++ (':' ::
                (('[' :: (joinComma (p.education.map Education.dumpJson) ++ [']'])) ++
                  ('}' :: rest)))))))))))) := by
  simp only [ParsedResume.model_dump_json, List.append_assoc, List.cons_append,
    List.singleton_append]
  rfl

theorem parseVal_resumeDump (f : Nat) (p : ParsedResume) (rest : Str)
    (hf : p.skills.length + (p.skills.map (fun kv => kv.2.length)).sum +
      p.experience.length + p.education.length + 10 ≤ f) :
    parseVal (f + 5) (ParsedResume.model_dump_json p ++ rest) =
      some (JVal.obj
        [(pstr "skills",
            JVal.obj (mkPyDict (p.skills.map (fun kv => (kv.1, JVal.arr (kv.2.map JVal.str)))))),
         (pstr "experience", JVal.arr (p.experience.map Experience.dumpJVal)),
         (pstr "education", JVal.arr (p.education.map Education.dumpJVal))], rest) := by
  have h := parseVal_obj3 f (pstr "skills\"") (pstr "experience\"") (pstr "education\"")
      (pstr "skills") (pstr "experience") (pstr "education")
      ('{' :: (joinComma (p.skills.map skillsFieldJson) ++ ['}']))
      ('[' :: (joinComma (p.experience.map Experience.dumpJson) ++ [']']))
      ('[' :: (joinComma (p.education.map Education.dumpJson) ++ [']']))
      (JVal.obj (mkPyDict (p.skills.map (fun kv => (kv.1, JVal.arr (kv.2.map JVal.str))))))
      (JVal.arr (p.experience.map Experience.dumpJVal))
      (JVal.arr (p.education.map Education.dumpJVal)) rest
      (fun X => rfl) (fun X => rfl) (fun X => rfl)
      (fun r => by
        rw [brace_wrap]
        exact parseVal_skillsObj (f + 2) p.skills r (by omega))
      (fun r => by
        rw [bracket_wrap]
        exact parseVal_arr 5 '{' Experience.dumpJson Experience.dumpJVal rfl (by decide)
          (fun a => ⟨_, rfl⟩)
          (fun g a r hg => by
            obtain ⟨g', rfl⟩ : ∃ g', g = g' + 5 := ⟨g - 5, by omega⟩
            exact parseVal_expDump g' a r)
          p.experience (f + 1) (by omega) r)
      (by
        rw [bracket_wrap]
        exact parseVal_arr 5 '{' Education.dumpJson Education.dumpJVal rfl (by decide)
          (fun a => ⟨_, rfl⟩)
          (fun g a r hg => by
            obtain ⟨g', rfl⟩ : ∃ g', g = g' + 5 := ⟨g - 5, by omega⟩
            exact parseVal_eduDump g' a r)
          p.education f (by omega) ('}' :: rest))
  rw [resumeDump_shape, h]
  rfl

theorem dictSet_not_mem (k : Str) (v : JVal) :
    ∀ d : JObj, (∀ kv ∈ d, kv.1 ≠ k) → dictSet d k v = d ++ [(k, v)]
  | [], _ => rfl
  | (k', v') :: rest, h => by
    show (if k' = k then (k', v) :: rest else (k', v') :: dictSet rest k v) = _
    rw [if_neg (h (k', v') (List.mem_cons_self _ _)),
      dictSet_not_mem k v rest (fun kv hkv => h kv (List.mem_cons_of_mem _ hkv))]
    rfl

theorem mkPyDict_go (ms : List (Str × JVal)) :
    ∀ d : JObj, (∀ kv ∈ d, ∀ kv' ∈ ms, kv.1 ≠ kv'.1) → (ms.map Prod.fst).Nodup →
      ms.foldl (fun d kv => dictSet d kv.1 kv.2) d = d ++ ms := by
  induction ms with
  | nil => intro d _ _; exact (List.append_nil d).symm
  | cons m t ih =>
    intro d hdisj hnd
    rw [List.map_cons, List.nodup_cons] at hnd
    show t.foldl (fun d kv => dictSet d kv.1 kv.2) (dictSet d m.1 m.2) = _
    rw [dictSet_not_mem m.1 m.2 d (fun kv hkv => hdisj kv hkv m (List.mem_cons_self _ _))]
    have hd2 : ∀ kv ∈ d ++ [(m.1, m.2)], ∀ kv' ∈ t, kv.1 ≠ kv'.1 := by
      intro kv hkv kv' hkv'
      rcases List.mem_append.1 hkv with h | h
      · exact hdisj kv h kv' (List.mem_cons_of_mem _ hkv')
      · rcases List.mem_singleton.1 h with rfl
        intro hEq
        exact hnd.1 (List.mem_map.2 ⟨kv', hkv', hEq.symm⟩)
    rw [ih (d ++ [(m.1, m.2)]) hd2 hnd.2, List.append_assoc]
    rfl

theorem mkPyDict_nodup (ms : List (Str × JVal)) (h : (ms.map Prod.fst).Nodup) :
    mkPyDict ms = ms :=
  (mkPyDict_go ms [] (fun _ hkv => absurd hkv (List.not_mem_nil _)) h).trans
    (List.nil_append ms)

theorem joinComma_length {α : Type} (enc : α → Str) (w : α → Nat)
    (h : ∀ a, w a ≤ (enc a).length) (l : List α) :
    (l.map w).sum ≤ (joinComma (l.map enc)).length := by
  induction l with
  | nil => exact Nat.le_refl 0
  | cons a t ih =>
    rcases t with _ | ⟨b, t'⟩
    · simpa using h a
    · show ((a :: b :: t').map w).sum ≤ (enc a ++ ',' :: joinComma ((b :: t').map enc)).length
      simp only [List.map_cons, List.sum_cons, List.length_append, List.length_cons]
      have := h a
      simp only [List.map_cons, List.sum_cons] at ih
      omega

theorem sum_map_one {α : Type} (l : List α) : (l.map (fun _ => 1)).sum = l.length := by
  induction l with
  | nil => rfl
  | cons a t iht => simp only [List.map_cons, List.sum_cons, List.length_cons, iht]; omega

theorem sum_map_add_one (l : List (Str × List Str)) :
    (l.map (fun kv => kv.2.length + 1)).sum =
      (l.map (fun kv => kv.2.length)).sum + l.length := by
  induction l with
  | nil => rfl
  | cons a t iht =>
    simp only [List.map_cons, List.sum_cons, List.length_cons, iht]
    omega

theorem renderStrArr_length (ss : List Str) : ss.length + 2 ≤ (renderStrArr ss).length := by
  have h := joinComma_length renderStr (fun _ => 1)
    (fun s => by simp [renderStr]) ss
  rw [sum_map_one] at h
  show ss.length + 2 ≤ ('[' :: (joinComma (ss.map renderStr) ++ [']'])).length
  simp only [List.length_cons, List.length_append, List.length_singleton]
  omega

theorem skillsFieldJson_length (kv : Str × List Str) :
    kv.2.length + 1 ≤ (skillsFieldJson kv).length := by
  have h := renderStrArr_length kv.2
  show kv.2.length + 1 ≤ (renderStr kv.1 ++ ':' :: renderStrArr kv.2).length
  simp only [List.length_append, List.length_cons]
  omega

theorem resumeDump_length (p : ParsedResume) :
    p.skills.length + (p.skills.map (fun kv => kv.2.length)).sum +
      p.experience.length + p.education.length + 13 ≤
      2 * (ParsedResume.model_dump_json p).length := by
  have hsk := joinComma_length skillsFieldJson (fun kv => kv.2.length + 1)
    skillsFieldJson_length p.skills
  rw [sum_map_add_one] at hsk
  have hexp := joinComma_length Experience.dumpJson (fun _ => 1)
    (fun e => by
      show 1 ≤ (pstr "\x7b\"role\":" ++ renderStr e.role ++ pstr ",\"company\":" ++
        renderOptStr e.company ++ pstr ",\"summary\":" ++ renderOptStr e.summary ++
        pstr "\x7d").length
      have l0 : (pstr "\x7b\"role\":").length = 8 := rfl
      simp only [List.length_append, l0]
      omega) p.experience
  rw [sum_map_one] at hexp
  have hedu := joinComma_length Education.dumpJson (fun _ => 1)
    (fun e => by
      show 1 ≤ (pstr "\x7b\"degree\":" ++ renderStr e.degree ++ pstr ",\"university\":" ++
        renderStr e.university ++ pstr ",\"graduation_year\":" ++
        renderOptInt e.graduation_year ++ pstr "\x7d").length
      have l0 : (pstr "\x7b\"degree\":").length = 10 := rfl
      simp only [List.length_append, l0]
      omega) p.education
  rw [sum_map_one] at hedu
  show _ ≤ 2 * (pstr "\x7b\"skills\":\x7b" ++ joinComma (p.skills.map skillsFieldJson) ++
    pstr "\x7d,\"experience\":[" ++ joinComma (p.experience.map Experience.dumpJson) ++
    pstr "],\"education\":[" ++ joinComma (p.education.map Education.dumpJson) ++
    pstr "]\x7d").length
  have l1 : (pstr "\x7b\"skills\":\x7b").length = 11 := rfl
  have l2 : (pstr "\x7d,\"experience\":[").length = 16 := rfl
  have l3 : (pstr "],\"education\":[").length = 15 := rfl
  have l4 : (pstr "]\x7d").length = 2 := rfl
  simp only [List.length_append, l1, l2, l3, l4]
  omega

theorem resumeDump_concat (p : ParsedResume) :
    ParsedResume.model_dump_json p =
      (pstr "\x7b\"skills\":\x7b" ++ joinComma (p.skills.map skillsFieldJson) ++
       pstr "\x7d,\"experience\":[" ++ joinComma (p.experience.map Experience.dumpJson) ++
       pstr "],\"education\":[" ++ joinComma (p.education.map Education.dumpJson) ++
       pstr "]") ++ ['}'] := by
  simp only [ParsedResume.model_dump_json, List.append_assoc]
  rfl

theorem json_loads_dump (p : ParsedResume) :
    json_loads (ParsedResume.model_dump_json p) =
      some (JVal.obj
        [(pstr "skills",
            JVal.obj (mkPyDict (p.skills.map (fun kv => (kv.1, JVal.arr (kv.2.map JVal.str)))))),
         (pstr "experience", JVal.arr (p.experience.map Experience.dumpJVal)),
         (pstr "education", JVal.arr (p.education.map Education.dumpJVal))]) := by
  have h1 : (ParsedResume.model_dump_json p).dropWhile jsonWsChar =
      ParsedResume.model_dump_json p := by
    obtain ⟨tl, htl⟩ : ∃ tl, ParsedResume.model_dump_json p = '{' :: tl := ⟨_, rfl⟩
    rw [htl]
    exact List.dropWhile_cons_of_neg (by decide)
  have h2 : List.rdropWhile jsonWsChar (ParsedResume.model_dump_json p) =
      ParsedResume.model_dump_json p := by
    rw [resumeDump_concat p]
    exact List.rdropWhile_concat_neg jsonWsChar _ '}' (by decide)
  have hlen := resumeDump_length p
  show (match parseVal
        (2 * (List.rdropWhile jsonWsChar
          ((ParsedResume.model_dump_json p).dropWhile jsonWsChar)).length + 2)
        (List.rdropWhile jsonWsChar
          ((ParsedResume.model_dump_json p).dropWhile jsonWsChar)) with
      | some (v, []) => some v
      | _ => none) = _
  rw [h1, h2]
  have hf : 2 * (ParsedResume.model_dump_json p).length + 2 =
      (2 * (ParsedResume.model_dump_json p).length - 3) + 5 := by omega
  have hp := parseVal_resumeDump (2 * (ParsedResume.model_dump_json p).length - 3) p []
    (by omega)
  rw [List.append_nil] at hp
  rw [hf, hp]

theorem pyStrip_dump (p : ParsedResume) :
    pyStrip (ParsedResume.model_dump_json p) = ParsedResume.model_dump_json p := by
  have h1 : (ParsedResume.model_dump_json p).dropWhile pyWsChar =
      ParsedResume.model_dump_json p := by
    obtain ⟨tl, htl⟩ : ∃ tl, ParsedResume.model_dump_json p = '{' :: tl := ⟨_, rfl⟩
    rw [htl]
    exact List.dropWhile_cons_of_neg (by decide)
  show List.rdropWhile pyWsChar ((ParsedResume.model_dump_json p).dropWhile pyWsChar) = _
  rw [h1, resumeDump_concat p]
  exact List.rdropWhile_concat_neg pyWsChar _ '}' (by decide)

theorem clean_dump (p : ParsedResume) :
    clean_json_response (ParsedResume.model_dump_json p) = ParsedResume.model_dump_json p := by
  have hpre1 : (pstr "```json").isPrefixOf (ParsedResume.model_dump_json p) = false := by
    obtain ⟨tl, htl⟩ : ∃ tl, ParsedResume.model_dump_json p = '{' :: tl := ⟨_, rfl⟩
    rw [htl]
    rfl
  have hpre2 : (pstr "```").isPrefixOf (ParsedResume.model_dump_json p) = false := by
    obtain ⟨tl, htl⟩ : ∃ tl, ParsedResume.model_dump_json p = '{' :: tl := ⟨_, rfl⟩
    rw [htl]
    rfl
  have hsuf : (pstr "```").isSuffixOf (ParsedResume.model_dump_json p) = false := by
    rw [resumeDump_concat p]
    show ((pstr "```").reverse.isPrefixOf
      ((pstr "\x7b\"skills\":\x7b" ++ joinComma (p.skills.map skillsFieldJson) ++
       pstr "\x7d,\"experience\":[" ++ joinComma (p.experience.map Experience.dumpJson) ++
       pstr "],\"education\":[" ++ joinComma (p.education.map Education.dumpJson) ++
       pstr "]") ++ ['}']).reverse) = false
    rw [List.reverse_append]
    rfl
  show pyStrip
      (if (pstr "```").isSuffixOf
          (if (pstr "```").isPrefixOf
              (if (pstr "```json").isPrefixOf (pyStrip (ParsedResume.model_dump_json p))
               then (pyStrip (ParsedResume.model_dump_json p)).drop 7
               else pyStrip (ParsedResume.model_dump_json p))
           then _ else _)
       then _ else _) = _
  rw [pyStrip_dump p, hpre1]
  show pyStrip
      (if (pstr "```").isSuffixOf
          (if (pstr "```").isPrefixOf (ParsedResume.model_dump_json p)
           then (ParsedResume.model_dump_json p).drop 3
           else ParsedResume.model_dump_json p)
       then _ else _) = _
  rw [hpre2]
  show pyStrip
      (if (pstr "```").isSuffixOf (ParsedResume.model_dump_json p)
       then (ParsedResume.model_dump_json p).take
         ((ParsedResume.model_dump_json p).length - 3)
       else ParsedResume.model_dump_json p) = _
  rw [hsuf]
  exact pyStrip_dump p

/-- C9: round trip.  For every validly constructed `ParsedResume` `p` (its
`skills` dict, being a Python dict, has no duplicate keys), serializing `p`
with `model_dump_json` and running the full normalization-and-validation
pipeline on the resulting text returns `p` itself: the cleanup stage leaves
the serialized text unchanged, `json.loads` decodes it back to the exact
document, and re-validation (including re-running the Experience/Education
`handle_ai_variations` hooks on the serialized fields) reconstructs `p`. -/
theorem claim9_round_trip (p : ParsedResume) (h : (p.skills.map Prod.fst).Nodup) :
    normalize_and_validate_resume (ParsedResume.model_dump_json p) = Outcome.ok p := by
  unfold normalize_and_validate_resume
  rw [clean_dump p, json_loads_dump p]
  show validateParsedResume (JVal.obj
      [(pstr "skills",
          JVal.obj (mkPyDict (p.skills.map (fun kv => (kv.1, JVal.arr (kv.2.map JVal.str)))))),
       (pstr "experience", JVal.arr (p.experience.map Experience.dumpJVal)),
       (pstr "education", JVal.arr (p.education.map Education.dumpJVal))]) = _
  have hmk : mkPyDict (p.skills.map (fun kv => (kv.1, JVal.arr (kv.2.map JVal.str)))) =
      p.skills.map (fun kv => (kv.1, JVal.arr (kv.2.map JVal.str))) := by
    apply mkPyDict_nodup
    rw [List.map_map]
    exact h
  rw [hmk]
  exact validateParsedResume_dump p

/-- Witness for C9: a concrete resume with one skills category, one
experience entry and one education entry satisfies the no-duplicate-keys
hypothesis, and the round trip returns it unchanged. -/
theorem claim9_round_trip_witness :
    ((([(pstr "languages", [pstr "Python", pstr "SQL"])] : List (Str × List Str)).map
        Prod.fst).Nodup) ∧
      normalize_and_validate_resume (ParsedResume.model_dump_json
        ⟨[(pstr "languages", [pstr "Python", pstr "SQL"])],
         [⟨pstr "Engineer", some (pstr "Acme"), none⟩],
         [⟨pstr "BS", pstr "MIT", some 2020⟩]⟩) =
        Outcome.ok
        ⟨[(pstr "languages", [pstr "Python", pstr "SQL"])],
         [⟨pstr "Engineer", some (pstr "Acme"), none⟩],
         [⟨pstr "BS", pstr "MIT", some 2020⟩]⟩ :=
  ⟨by decide, claim9_round_trip
    ⟨[(pstr "languages", [pstr "Python", pstr "SQL"])],
     [⟨pstr "Engineer", some (pstr "Acme"), none⟩],
     [⟨pstr "BS", pstr "MIT", some 2020⟩]⟩ (by decide)⟩
